import Mathlib

/-!
# zgDrive: the file lifecycle orchestrator

A shallow embedding of the Go sources `services/dbservice.go` (the SQLite
metadata store) and `main.go` (the request handlers and the four background
goroutines), followed by the properties proved about them.

Modelling conventions.

* A table is the list of its rows in rowid order; `INTEGER PRIMARY KEY
  AUTOINCREMENT` is the counter kept next to the table (`files_seq`,
  `downloaded_files_seq`): a new row takes the counter plus one.
* `int64` values are `Int`; timestamps and `time.Duration` are `Int`
  nanoseconds, and SQLite's comparison of two timestamps is the order of the
  instants. Overflow of a 64 bit id or size is outside the model.
* A statement sent to SQLite is taken to succeed: the `err != nil` branches
  that only forward a driver error are not represented. `sql.ErrNoRows`, which
  depends on the data, is represented.
* `SizeReadable`, a display string computed by float formatting that no store
  operation and no goroutine reads, is left out of `File`.
* The storage network (`ZgService`) and the operating system are an
  environment: each call's outcome is an argument of the function that makes
  the call.
-/

namespace ZgDrive

/-! ## Data model (`model/file.go`, `model/downloadedFile.go`, the schema) -/

/-- Timestamps and durations, in nanoseconds as `time.Duration` counts them. -/
abbrev Time := Int

/-- The constant `time.Hour`. -/
def Hour : Time := 3600 * 1000000000

/-- The struct `model.File`. A field that a constructor leaves out holds the
Go zero value: `0`, `""`, `false`. -/
structure File where
  ID : Int
  Filename : String
  Hash : String
  Size : Int
  TxId : String
  IsUploaded : Bool
  CreatedAt : Time
  deriving DecidableEq, Repr

/-- The struct `model.DownloadedFile`. -/
structure DownloadedFile where
  ID : Int
  FileId : Int
  Filename : String
  Size : Int
  IsDownloading : Bool
  DownloadedAt : Time
  deriving DecidableEq, Repr

/-- A row of table `files`; `tx_id` is the only nullable column that the code
leaves `NULL`. -/
structure FileRow where
  id : Int
  filename : String
  hash : String
  size : Int
  tx_id : Option String
  is_uploaded : Bool
  created_at : Time
  deriving DecidableEq, Repr

/-- A row of table `downloaded_files`. -/
structure DownloadedFileRow where
  id : Int
  file_id : Int
  filename : String
  hash : String
  size : Int
  downloaded_at : Time
  is_processing : Bool
  is_removed : Bool
  deriving DecidableEq, Repr

/-- The database behind `DBService`: both tables with their AUTOINCREMENT
counters. -/
structure Store where
  files : List FileRow
  downloaded_files : List DownloadedFileRow
  files_seq : Int
  downloaded_files_seq : Int
  deriving DecidableEq, Repr

/-- The database right after `NewDBService` created the two tables. -/
def Store.empty : Store := ⟨[], [], 0, 0⟩

/-! ## Store operations (`services/dbservice.go`) -/

/-- `DBService.AddFile`: inserts a row and returns the `File` built from the
`RETURNING id, filename, size, is_uploaded, created_at` columns. -/
def AddFile (s : Store) (now : Time) (filename hash : String) (size : Int) : File × Store :=
  let id := s.files_seq + 1
  let row : FileRow := ⟨id, filename, hash, size, none, false, now⟩
  (⟨id, row.filename, "", row.size, "", row.is_uploaded, row.created_at⟩,
   ⟨s.files ++ [row], s.downloaded_files, id, s.downloaded_files_seq⟩)

/-- `DBService.SetUploaded`: `UPDATE files SET is_uploaded = TRUE WHERE filename = ?`. -/
def SetUploaded (s : Store) (filename : String) : Store :=
  ⟨s.files.map (fun r => if r.filename = filename then
      ⟨r.id, r.filename, r.hash, r.size, r.tx_id, true, r.created_at⟩ else r),
   s.downloaded_files, s.files_seq, s.downloaded_files_seq⟩

/-- `DBService.GetFileById`: the first row with the id, or `sql.ErrNoRows`. -/
def GetFileById (s : Store) (fileId : Int) : Except String File :=
  match s.files.find? (fun r => r.id = fileId) with
  | none => .error "sql: no rows in result set"
  | some r => .ok ⟨r.id, r.filename, r.hash, r.size, r.tx_id.getD "", r.is_uploaded, r.created_at⟩

/-- `DBService.UpdateTxId`: `UPDATE files SET tx_id = ? WHERE id = ?`. -/
def UpdateTxId (s : Store) (fileId : Int) (txId : String) : Store :=
  ⟨s.files.map (fun r => if r.id = fileId then
      ⟨r.id, r.filename, r.hash, r.size, some txId, r.is_uploaded, r.created_at⟩ else r),
   s.downloaded_files, s.files_seq, s.downloaded_files_seq⟩

/-- `DBService.GetUnuploadedFiles`: the rows with
`is_uploaded = FALSE AND tx_id IS NOT NULL`, each appended as a `File`. -/
def GetUnuploadedFiles (s : Store) : List File :=
  (s.files.filter (fun r => r.is_uploaded = false ∧ r.tx_id ≠ none)).foldl
    (fun files r => files ++ [⟨r.id, r.filename, r.hash, r.size, r.tx_id.getD "", false, 0⟩]) []

/-- `DBService.NewDownloadedFile`: inserts `(file_id, filename, hash, size)`;
the other columns take their defaults. -/
def NewDownloadedFile (s : Store) (now : Time) (file : File) : Store :=
  let id := s.downloaded_files_seq + 1
  ⟨s.files,
   s.downloaded_files ++ [⟨id, file.ID, file.Filename, file.Hash, file.Size, now, true, false⟩],
   s.files_seq, id⟩

/-- `DBService.GetExpiredDownloadedFiles`: the rows with `is_removed = FALSE
AND is_processing = FALSE AND downloaded_at < ?`, the bound parameter being
`time.Now().Add(-duration)`, each appended as a `File`. -/
def GetExpiredDownloadedFiles (s : Store) (now duration : Time) : List File :=
  (s.downloaded_files.filter (fun r =>
      r.is_removed = false ∧ r.is_processing = false ∧ r.downloaded_at < now + -duration)).foldl
    (fun files r => files ++ [⟨r.id, r.filename, r.hash, r.size, "", false, 0⟩]) []

/-- `DBService.SetProcessing`:
`UPDATE downloaded_files SET is_processing = FALSE WHERE file_id = ?`. -/
def SetProcessing (s : Store) (fileId : Int) : Store :=
  ⟨s.files,
   s.downloaded_files.map (fun r => if r.file_id = fileId then
      ⟨r.id, r.file_id, r.filename, r.hash, r.size, r.downloaded_at, false, r.is_removed⟩ else r),
   s.files_seq, s.downloaded_files_seq⟩

/-- `DBService.ListDownloadedFiles`: the rows with
`is_removed = FALSE AND is_processing = FALSE`. -/
def ListDownloadedFiles (s : Store) : List DownloadedFile :=
  (s.downloaded_files.filter (fun r => r.is_removed = false ∧ r.is_processing = false)).foldl
    (fun files r => files ++ [⟨r.id, r.file_id, r.filename, r.size, r.is_processing, r.downloaded_at⟩]) []

/-- `DBService.RemoveDownloadedFile`:
`UPDATE downloaded_files SET is_removed = TRUE WHERE id = ?`. -/
def RemoveDownloadedFile (s : Store) (fileId : Int) : Store :=
  ⟨s.files,
   s.downloaded_files.map (fun r => if r.id = fileId then
      ⟨r.id, r.file_id, r.filename, r.hash, r.size, r.downloaded_at, r.is_processing, true⟩ else r),
   s.files_seq, s.downloaded_files_seq⟩

/-- `DBService.CheckIsFileAlreadyDownloaded`: `COUNT(*) > 0` over the rows with
`hash = ? AND is_removed = FALSE`. -/
def CheckIsFileAlreadyDownloaded (s : Store) (hash : String) : Bool :=
  let count := (s.downloaded_files.filter (fun r => r.hash = hash ∧ r.is_removed = false)).length
  decide (count > 0)

/-- `DBService.CheckDownloadStatus`: `COUNT(*) > 0` over the rows with
`hash = ? AND is_removed = FALSE AND is_processing = FALSE`. -/
def CheckDownloadStatus (s : Store) (hash : String) : Bool :=
  let count := (s.downloaded_files.filter (fun r =>
    r.hash = hash ∧ r.is_removed = false ∧ r.is_processing = false)).length
  decide (count > 0)

/-- `DBService.GetHash`: the hash of the first row with the filename. -/
def GetHash (s : Store) (filename : String) : Except String String :=
  match s.files.find? (fun r => r.filename = filename) with
  | none => .error "sql: no rows in result set"
  | some r => .ok r.hash

/-- One call of a `DBService` method, as data: the mutating methods and the
read-only queries (`SELECT` statements, which leave the store as it is). -/
inductive StoreOp where
  | AddFile (now : Time) (filename hash : String) (size : Int)
  | SetUploaded (filename : String)
  | UpdateTxId (fileId : Int) (txId : String)
  | NewDownloadedFile (now : Time) (file : File)
  | SetProcessing (fileId : Int)
  | RemoveDownloadedFile (fileId : Int)
  | GetFileById (fileId : Int)
  | ListFiles
  | GetUnuploadedFiles
  | GetExpiredDownloadedFiles (now duration : Time)
  | ListDownloadedFiles
  | CheckIsFileAlreadyDownloaded (hash : String)
  | CheckDownloadStatus (hash : String)
  | GetHash (filename : String)

/-- The store after one method call. -/
def StoreOp.apply : StoreOp → Store → Store
  | .AddFile now filename hash size, s => (ZgDrive.AddFile s now filename hash size).2
  | .SetUploaded filename, s => ZgDrive.SetUploaded s filename
  | .UpdateTxId fileId txId, s => ZgDrive.UpdateTxId s fileId txId
  | .NewDownloadedFile now file, s => ZgDrive.NewDownloadedFile s now file
  | .SetProcessing fileId, s => ZgDrive.SetProcessing s fileId
  | .RemoveDownloadedFile fileId, s => ZgDrive.RemoveDownloadedFile s fileId
  | .GetFileById _, s => s
  | .ListFiles, s => s
  | .GetUnuploadedFiles, s => s
  | .GetExpiredDownloadedFiles _ _, s => s
  | .ListDownloadedFiles, s => s
  | .CheckIsFileAlreadyDownloaded _, s => s
  | .CheckDownloadStatus _, s => s
  | .GetHash _, s => s

/-- The store after a sequence of method calls, first call first. -/
def runOps (ops : List StoreOp) (s : Store) : Store :=
  ops.foldl (fun acc op => op.apply acc) s

/-! ## The local file system

The working directory is the list of the paths that exist. The staged copy of
a file is `./<filename>` (Go resolves the bare `<filename>` that the upload
handler and the downloader write to the same file), the served copy is
`./downloads/<filename>`. `ioErr path` tells whether the operating system
refuses the operation on `path` for a reason of its own (permissions, a
missing directory). -/

/-- The paths that exist. -/
abbrev FS := List String

/-- `os.Remove`: fails when the operating system refuses or the path does not
exist, else the path is gone. -/
def osRemove (fs : FS) (ioErr : String → Bool) (path : String) : Except String FS :=
  if ioErr path then .error "remove: operation not permitted"
  else if path ∈ fs then .ok (fs.filter (fun p => p ≠ path))
  else .error "remove: no such file or directory"

/-- `os.Rename`: fails when the operating system refuses or the old path does
not exist, else the old path is gone and the new one exists. -/
def osRename (fs : FS) (ioErr : String → Bool) (oldpath newpath : String) : Except String FS :=
  if ioErr oldpath then .error "rename: operation not permitted"
  else if oldpath ∈ fs then .ok (newpath :: fs.filter (fun p => p ≠ oldpath ∧ p ≠ newpath))
  else .error "rename: no such file or directory"

/-! ## The background goroutines (`main.go`) -/

/-- What one pass of a goroutine leaves behind: the store, the file system and
whether the goroutine is still running (`false` once it executed `return`). -/
structure Outcome where
  store : Store
  fs : FS
  running : Bool
  deriving DecidableEq, Repr

/-- One iteration of the upload worker (main.go 51-64) on the dequeued
`newFile`; `upload` is what `zgService.UploadFile` returns. -/
def uploadWorker (s : Store) (fs : FS) (newFile : File) (upload : Except String String) : Outcome :=
  match upload with
  | .error _ => ⟨s, fs, false⟩
  | .ok tx => if tx ≠ "" then ⟨UpdateTxId s newFile.ID tx, fs, true⟩ else ⟨s, fs, true⟩

/-- One iteration of the download worker (main.go 68-91) on the dequeued
`downloadedFile`; `download` is what `zgService.DownloadFile` returns, and a
successful download has written the staged copy. -/
def downloadWorker (s : Store) (fs : FS) (now : Time) (downloadedFile : File)
    (download : Except String Bool) (ioErr : String → Bool) : Outcome :=
  let s1 := NewDownloadedFile s now downloadedFile
  match download with
  | .error _ => ⟨s1, fs, false⟩
  | .ok isDone =>
    if isDone then
      let fs1 := ("./" ++ downloadedFile.Filename) :: fs.filter (fun p => p ≠ "./" ++ downloadedFile.Filename)
      let s2 := SetProcessing s1 downloadedFile.ID
      match osRename fs1 ioErr ("./" ++ downloadedFile.Filename)
          ("./downloads/" ++ downloadedFile.Filename) with
      | .error _ => ⟨s2, fs1, false⟩
      | .ok fs2 => ⟨s2, fs2, true⟩
    else ⟨s1, fs, true⟩

/-- The `for _, file := range files` loop of the expiry sweeper (main.go
101-110). -/
def sweeperLoop (ioErr : String → Bool) : List File → Store → FS → Outcome
  | [], s, fs => ⟨s, fs, true⟩
  | file :: rest, s, fs =>
    match osRemove fs ioErr ("./downloads/" ++ file.Filename) with
    | .error _ => ⟨s, fs, false⟩
    | .ok fs1 => sweeperLoop ioErr rest (RemoveDownloadedFile s file.ID) fs1

/-- One tick of the expiry sweeper (main.go 95-111): the query with a
retention of `1*time.Hour`, then the loop. -/
def sweeperTick (s : Store) (fs : FS) (now : Time) (ioErr : String → Bool) : Outcome :=
  sweeperLoop ioErr (GetExpiredDownloadedFiles s now (1 * Hour)) s fs

/-- The `for _, file := range files` loop of the upload-status poller (main.go
123-139); `check i hash` is what the call number `i` of the tick,
`zgService.CheckFileStatus(ctx, hash)`, returns. -/
def pollerLoop (check : Nat → String → Except String Bool) (ioErr : String → Bool) :
    Nat → List File → Store → FS → Outcome
  | _, [], s, fs => ⟨s, fs, true⟩
  | i, file :: rest, s, fs =>
    match check i file.Hash with
    | .error _ => ⟨s, fs, false⟩
    | .ok isDone =>
      if isDone then
        let s1 := SetUploaded s file.Filename
        match osRemove fs ioErr ("./" ++ file.Filename) with
        | .error _ => ⟨s1, fs, false⟩
        | .ok fs1 => pollerLoop check ioErr (i + 1) rest s1 fs1
      else pollerLoop check ioErr (i + 1) rest s fs

/-- One tick of the upload-status poller (main.go 116-140). -/
def pollerTick (s : Store) (fs : FS) (check : Nat → String → Except String Bool)
    (ioErr : String → Bool) : Outcome :=
  pollerLoop check ioErr 0 (GetUnuploadedFiles s) s fs

/-! ## The request handlers (`main.go`) -/

/-- The JSON answer of a handler: the HTTP code and the `status`, `message`
(or `error`) and `fileId` entries of the `gin.H` map. -/
structure Response where
  code : Nat
  status : String
  message : String
  fileId : Int
  deriving DecidableEq, Repr

/-- What a handler did: its answer, the `File` it sent to its channel if any,
and the store and file system it leaves. -/
structure Handled where
  response : Response
  sent : Option File
  store : Store
  fs : FS
  deriving DecidableEq, Repr

/-- The handler of `GET /download/:fileId` (main.go 224-252); `fileIdInt` and
`parseErr` are the two results of `strconv.ParseInt` on the path parameter. -/
def downloadHandler (s : Store) (fs : FS) (fileIdInt : Int) (parseErr : Option String) : Handled :=
  match parseErr with
  | some e => ⟨⟨400, "error", e, fileIdInt⟩, none, s, fs⟩
  | none =>
    match GetFileById s fileIdInt with
    | .error e => ⟨⟨500, "error", e, fileIdInt⟩, none, s, fs⟩
    | .ok file =>
      let isDone := CheckIsFileAlreadyDownloaded s file.Hash
      if isDone then
        ⟨⟨200, "downloaded", "File already downloaded or processing. File name: " ++ file.Filename,
          file.ID⟩, none, s, fs⟩
      else
        ⟨⟨200, "downloading", "File downloaded successfully. File name: " ++ file.Filename,
          file.ID⟩, some file, s, fs⟩

/-- The handler of `POST /upload` (main.go 172-199); `form` is what
`c.FormFile` returns (the name and size of the part), `saveErr` what
`c.SaveUploadedFile` returns and `hash` what `services.FileHash` returns. -/
def uploadHandler (s : Store) (fs : FS) (now : Time) (form : Except String (String × Int))
    (saveErr : Option String) (hash : Except String String) : Handled :=
  match form with
  | .error e => ⟨⟨400, "", e, 0⟩, none, s, fs⟩
  | .ok (filename, size) =>
    match saveErr with
    | some e => ⟨⟨500, "", e, 0⟩, none, s, fs⟩
    | none =>
      let fs1 := ("./" ++ filename) :: fs.filter (fun p => p ≠ "./" ++ filename)
      match hash with
      | .error e => ⟨⟨500, "", e, 0⟩, none, s, fs1⟩
      | .ok h =>
        let added := AddFile s now filename h size
        ⟨⟨200, "", "File uploaded successfully. Transaction hash: " ++ h, 0⟩,
          some added.1, added.2, fs1⟩

/-! ## The running system

The two channels are unbuffered: a handler that reached its send blocks until
the worker receives. `newFilesChan` and `downloadedFilesChan` hold the values
of the blocked senders, oldest first. A step is one handler running up to its
send, one worker iteration on the value it receives, or one tick of a timer
goroutine; a goroutine that returned takes no more steps. -/

/-- The store, the file system, the senders blocked on each channel and which
goroutines are running. -/
structure System where
  store : Store
  fs : FS
  newFilesChan : List File
  downloadedFilesChan : List File
  uploadWorkerRunning : Bool
  downloadWorkerRunning : Bool
  sweeperRunning : Bool
  pollerRunning : Bool

/-- The system when `main` has started its goroutines on a fresh database. -/
def System.init : System := ⟨Store.empty, [], [], [], true, true, true, true⟩

/-- One step of the system together with what the environment answers in it. -/
inductive Action where
  | upload (now : Time) (form : Except String (String × Int)) (saveErr : Option String)
      (hash : Except String String)
  | uploadWorker (upload : Except String String)
  | poller (check : Nat → String → Except String Bool) (ioErr : String → Bool)
  | download (fileIdInt : Int) (parseErr : Option String)
  | downloadWorker (now : Time) (download : Except String Bool) (ioErr : String → Bool)
  | sweeper (now : Time) (ioErr : String → Bool)

/-- The system after one step. -/
def step : Action → System → System
  | .upload now form saveErr hash, σ =>
    let h := uploadHandler σ.store σ.fs now form saveErr hash
    ⟨h.store, h.fs, σ.newFilesChan ++ h.sent.toList, σ.downloadedFilesChan,
      σ.uploadWorkerRunning, σ.downloadWorkerRunning, σ.sweeperRunning, σ.pollerRunning⟩
  | .uploadWorker upload, σ =>
    match σ.uploadWorkerRunning, σ.newFilesChan with
    | true, newFile :: rest =>
      let o := uploadWorker σ.store σ.fs newFile upload
      ⟨o.store, o.fs, rest, σ.downloadedFilesChan,
        o.running, σ.downloadWorkerRunning, σ.sweeperRunning, σ.pollerRunning⟩
    | _, _ => σ
  | .poller check ioErr, σ =>
    match σ.pollerRunning with
    | true =>
      let o := pollerTick σ.store σ.fs check ioErr
      ⟨o.store, o.fs, σ.newFilesChan, σ.downloadedFilesChan,
        σ.uploadWorkerRunning, σ.downloadWorkerRunning, σ.sweeperRunning, o.running⟩
    | false => σ
  | .download fileIdInt parseErr, σ =>
    let h := downloadHandler σ.store σ.fs fileIdInt parseErr
    ⟨h.store, h.fs, σ.newFilesChan, σ.downloadedFilesChan ++ h.sent.toList,
      σ.uploadWorkerRunning, σ.downloadWorkerRunning, σ.sweeperRunning, σ.pollerRunning⟩
  | .downloadWorker now download ioErr, σ =>
    match σ.downloadWorkerRunning, σ.downloadedFilesChan with
    | true, downloadedFile :: rest =>
      let o := downloadWorker σ.store σ.fs now downloadedFile download ioErr
      ⟨o.store, o.fs, σ.newFilesChan, rest,
        σ.uploadWorkerRunning, o.running, σ.sweeperRunning, σ.pollerRunning⟩
    | _, _ => σ
  | .sweeper now ioErr, σ =>
    match σ.sweeperRunning with
    | true =>
      let o := sweeperTick σ.store σ.fs now ioErr
      ⟨o.store, o.fs, σ.newFilesChan, σ.downloadedFilesChan,
        σ.uploadWorkerRunning, σ.downloadWorkerRunning, o.running, σ.pollerRunning⟩
    | false => σ

/-- The system after a sequence of steps, first step first. -/
def run (as : List Action) (σ : System) : System :=
  as.foldl (fun acc a => step a acc) σ

/-! ## Example data -/

/-- A store with three downloads of file 7: an old finished one, an old one
still processing and a recent finished one. -/
def exampleDownloads : Store :=
  ⟨[], [⟨1, 7, "a", "H", 3, 0, false, false⟩, ⟨2, 7, "b", "H", 3, 0, true, false⟩,
        ⟨3, 7, "c", "H", 3, 100, false, false⟩], 0, 3⟩

/-- A store with one confirmed file and one download of it that was removed. -/
def exampleSettled : Store :=
  ⟨[⟨1, "a.txt", "H1", 10, some "T1", true, 0⟩], [⟨1, 1, "a.txt", "H1", 10, 0, false, true⟩], 1, 1⟩

/-- A system whose file 1 is being downloaded: its `downloaded_files` row is
neither finished nor removed. -/
def exampleProcessing : System :=
  ⟨⟨[⟨1, "a.txt", "H1", 10, none, false, 0⟩], [⟨1, 1, "a.txt", "H1", 10, 5, true, false⟩], 1, 1⟩,
    [], [], [], true, true, true, true⟩

/-- A system holding file 1 (`a.txt`, hash `H1`) and no download yet. -/
def exampleOneFile : System :=
  ⟨⟨[⟨1, "a.txt", "H1", 10, some "T1", true, 0⟩], [], 1, 0⟩, [], [], [], true, true, true, true⟩

/-- Two requests for file 1 that both reach the send before the download
worker takes the first one, then the worker serving both. -/
def raceTrace : List Action :=
  [.download 1 none, .download 1 none,
   .downloadWorker 5 (.ok true) (fun _ => false), .downloadWorker 6 (.ok true) (fun _ => false)]

/-- A store with two expired, finished downloads; only the served copy of the
second one, `./downloads/b.txt`, is on disk. -/
def exampleTwoExpired : Store :=
  ⟨[], [⟨1, 1, "a.txt", "H1", 10, 0, false, false⟩, ⟨2, 2, "b.txt", "H2", 20, 0, false, false⟩], 0, 2⟩

/-- A store with two files whose upload was accepted and is not yet confirmed. -/
def exampleTwoPending : Store :=
  ⟨[⟨1, "a.txt", "H1", 10, some "T1", false, 0⟩, ⟨2, "b.txt", "H2", 20, some "T2", false, 0⟩], [], 2, 0⟩

/-- A store where `a.txt` was uploaded twice with different contents: the
first upload was accepted by the network, the second has no transfer id yet. -/
def exampleSameName : Store :=
  ⟨[⟨1, "a.txt", "H1", 10, some "T1", false, 0⟩, ⟨2, "a.txt", "H2", 20, none, false, 5⟩], [], 2, 0⟩

/-! ## Invariant of the upload path -/

/-- The id and transfer id of every `files` row, in table order. -/
def txView (s : Store) : List (Int × Option String) :=
  s.files.map (fun r => (r.id, r.tx_id))

/-- What holds of the `files` table and the upload channel in every reachable
state: ids are at most the AUTOINCREMENT counter and pairwise distinct, in the
table and among the Files waiting on the channel, and the row of a waiting
File has no transfer id yet. -/
def UploadInv (σ : System) : Prop :=
  (∀ p ∈ txView σ.store, p.1 ≤ σ.store.files_seq)
  ∧ ((txView σ.store).map Prod.fst).Nodup
  ∧ (∀ f ∈ σ.newFilesChan, f.ID ≤ σ.store.files_seq)
  ∧ (σ.newFilesChan.map (fun f => f.ID)).Nodup
  ∧ (∀ f ∈ σ.newFilesChan, ∀ p ∈ txView σ.store, p.1 = f.ID → p.2 = none)

/-- A run from the fresh system: two uploads of `a.txt`, the worker sending the
first to the network, a poller tick and a download request. -/
def exampleRun : List Action :=
  [.upload 1 (.ok ("a.txt", 10)) none (.ok "H1"), .upload 2 (.ok ("a.txt", 20)) none (.ok "H2"),
   .uploadWorker (.ok "T1"), .poller (fun _ _ => .ok true) (fun _ => false), .download 1 none]

/-! ## The statements executed by a sweeper tick, in order -/

/-- What the sweeper loop does for one record of the batch: `os.Remove`
returned `nil`, `os.Remove` returned an error (the goroutine then returns), or
the call `dbservice.RemoveDownloadedFile(ctx, file.ID)`. -/
inductive SweepEvent where
  | removeOk (file : File)
  | removeErr (file : File)
  | markRemoved (file : File)
  deriving DecidableEq, Repr

/-- The loop of the expiry sweeper (main.go 101-110) as the sequence of its
calls, with the result of each deletion: for every record a deletion, followed
by the marking when the deletion succeeded; the sequence ends at the first
deletion that fails. -/
def sweeperLog (ioErr : String → Bool) : List File → FS → List SweepEvent
  | [], _ => []
  | file :: rest, fs =>
    match osRemove fs ioErr ("./downloads/" ++ file.Filename) with
    | .error _ => [.removeErr file]
    | .ok fs1 => .removeOk file :: .markRemoved file :: sweeperLog ioErr rest fs1

/-- The calls of one tick of the expiry sweeper. -/
def sweeperTickLog (s : Store) (fs : FS) (now : Time) (ioErr : String → Bool) : List SweepEvent :=
  sweeperLog ioErr (GetExpiredDownloadedFiles s now (1 * Hour)) fs

/-- The effect of one call on the store: only `RemoveDownloadedFile` writes. -/
def SweepEvent.apply : SweepEvent → Store → Store
  | .markRemoved file, s => RemoveDownloadedFile s file.ID
  | _, s => s

/-- The store after the given calls, first call first. -/
def replay (evs : List SweepEvent) (s : Store) : Store :=
  evs.foldl (fun acc e => e.apply acc) s

/-- A store as a crash between the deletion and the flag update leaves it:
one expired, finished download that is not marked removed while its served
copy is no longer on disk. -/
def exampleCrashed : Store :=
  ⟨[], [⟨1, 1, "a.txt", "H1", 10, 0, false, false⟩], 0, 1⟩

/-- The steps of the download path: the request handler of
`GET /download/:fileId`, the download worker and the expiry sweeper. -/
def Action.isDownloadPath : Action → Bool
  | .download _ _ => true
  | .downloadWorker _ _ _ => true
  | .sweeper _ _ => true
  | _ => false

/-! # Properties -/

/-! ## Auxiliary facts -/

/-- The Go idiom `files = append(files, f r)` over a result set builds the
image of the result set. -/
theorem foldl_append_eq_map {α β : Type} (f : α → β) (l : List α) (acc : List β) :
    l.foldl (fun files r => files ++ [f r]) acc = acc ++ l.map f := by
  induction l generalizing acc with
  | nil => simp
  | cons a l ih => simp [ih]

/-- The expired entries as the image of the selected rows. -/
theorem GetExpiredDownloadedFiles_eq_map (s : Store) (now duration : Time) :
    GetExpiredDownloadedFiles s now duration =
      (s.downloaded_files.filter (fun r =>
        r.is_removed = false ∧ r.is_processing = false ∧ r.downloaded_at < now + -duration)).map
        (fun r => (⟨r.id, r.filename, r.hash, r.size, "", false, 0⟩ : File)) := by
  unfold GetExpiredDownloadedFiles
  rw [foldl_append_eq_map]
  simp

/-- Counting the entries with a given id in the image of a filtered table
whose ids are pairwise distinct. -/
theorem count_id_filter_map (p : DownloadedFileRow → Bool) (rows : List DownloadedFileRow)
    (hnd : (rows.map (fun r => r.id)).Nodup) (r : DownloadedFileRow) (hr : r ∈ rows) :
    (((rows.filter p).map
        (fun r => (⟨r.id, r.filename, r.hash, r.size, "", false, 0⟩ : File))).filter
        (fun e => e.ID = r.id)).length = if p r then 1 else 0 := by
  induction rows with
  | nil => simp at hr
  | cons a rows ih =>
    simp only [List.map_cons, List.nodup_cons, List.mem_map, not_exists, not_and] at hnd
    obtain ⟨ha, hnd⟩ := hnd
    have hrest : ∀ q : DownloadedFileRow, q.id = a.id → q ∉ rows → 
        (((rows.filter p).map
        (fun r => (⟨r.id, r.filename, r.hash, r.size, "", false, 0⟩ : File))).filter
        (fun e => e.ID = q.id)).length = 0 := by
      intro q hq _
      rw [List.length_eq_zero, List.filter_eq_nil_iff]
      intro e he
      simp only [List.mem_map, List.mem_filter] at he
      obtain ⟨x, ⟨hx, _⟩, rfl⟩ := he
      simp only [decide_eq_true_eq]
      intro h
      exact ha x hx (h.trans hq)
    rcases List.mem_cons.1 hr with rfl | hr
    · by_cases hp : p r = true
      · have h0 := hrest r rfl (fun h => ha r h rfl)
        simp [List.filter_cons, hp, h0]
      · have h0 := hrest r rfl (fun h => ha r h rfl)
        simp [List.filter_cons, hp, h0]
    · have hne : a.id ≠ r.id := fun h => ha r hr h.symm
      by_cases hp : p a = true
      · simp [List.filter_cons, hp, hne, ih hnd hr]
      · simp [List.filter_cons, hp, ih hnd hr]

/-- Claim C1. `GetExpiredDownloadedFiles` walks the table once and returns,
for each row, one entry (its id, filename, hash and size) when the row has
`is_removed = false`, `is_processing = false` and `downloaded_at < now - d`,
and nothing otherwise; when the ids are the primary key, every row of the
table has exactly one entry under its id if it satisfies the three conditions
and none if it does not, so a row with `is_processing = true` has none. -/
theorem GetExpiredDownloadedFiles_exact (s : Store) (now d : Time) :
    GetExpiredDownloadedFiles s now d =
        s.downloaded_files.flatMap (fun r =>
          if r.is_removed = false ∧ r.is_processing = false ∧ r.downloaded_at < now - d
          then [(⟨r.id, r.filename, r.hash, r.size, "", false, 0⟩ : File)] else [])
    ∧ ((s.downloaded_files.map (fun r => r.id)).Nodup →
        ∀ r ∈ s.downloaded_files,
          (((GetExpiredDownloadedFiles s now d).filter (fun e => e.ID = r.id)).length =
              if r.is_removed = false ∧ r.is_processing = false ∧ r.downloaded_at < now - d
              then 1 else 0)
          ∧ (r.is_processing = true → ∀ e ∈ GetExpiredDownloadedFiles s now d, e.ID ≠ r.id)) := by
  have hsub : now + -d = now - d := by ring
  refine ⟨?_, ?_⟩
  · rw [GetExpiredDownloadedFiles_eq_map, hsub]
    induction s.downloaded_files with
    | nil => rfl
    | cons a rows ih =>
      by_cases h : a.is_removed = false ∧ a.is_processing = false ∧ a.downloaded_at < now - d
      · rw [List.filter_cons, if_pos (decide_eq_true h), List.map_cons, ih, List.flatMap_cons,
          if_pos h]
        rfl
      · rw [List.filter_cons, if_neg (by simpa using h), ih, List.flatMap_cons, if_neg h]
        rfl
  · intro hnd r hr
    have hc := count_id_filter_map (fun r =>
        decide (r.is_removed = false ∧ r.is_processing = false ∧ r.downloaded_at < now - d))
        s.downloaded_files hnd r hr
    rw [GetExpiredDownloadedFiles_eq_map, hsub]
    simp only [decide_eq_true_eq] at hc
    refine ⟨hc, ?_⟩
    intro hproc e he hid
    have hpos : 0 < (((s.downloaded_files.filter (fun r =>
        decide (r.is_removed = false ∧ r.is_processing = false ∧ r.downloaded_at < now - d))).map
        (fun r => (⟨r.id, r.filename, r.hash, r.size, "", false, 0⟩ : File))).filter
        (fun e => e.ID = r.id)).length := by
      apply List.length_pos_of_mem (a := e)
      simp only [List.mem_filter, decide_eq_true_eq]
      exact ⟨he, hid⟩
    rw [hc] at hpos
    simp [hproc] at hpos

/-- Claim C1 at a table of three rows, an old finished one, an old one still
processing and a recent finished one: the row still processing has no entry. -/
theorem GetExpiredDownloadedFiles_exact_witness :
    (exampleDownloads.downloaded_files.map (fun r => r.id)).Nodup
    ∧ ((GetExpiredDownloadedFiles exampleDownloads 150 100).filter (fun e => e.ID = 2)).length =
        if (false = false ∧ true = false ∧ (0 : Int) < 150 - 100) then 1 else 0 :=
  ⟨by decide,
   ((GetExpiredDownloadedFiles_exact exampleDownloads 150 100).2 (by decide)
      ⟨2, 7, "b", "H", 3, 0, true, false⟩ (by simp [exampleDownloads])).1⟩

/-- One method call keeps every `files` row in place with its id and never
resets `is_uploaded`. -/
theorem apply_files_mono (op : StoreOp) (s : Store) (i : Nat) (r : FileRow)
    (h : s.files[i]? = some r) :
    ∃ r2, (op.apply s).files[i]? = some r2 ∧ r2.id = r.id ∧
      (r.is_uploaded = true → r2.is_uploaded = true) := by
  cases op <;>
    simp only [StoreOp.apply, AddFile, SetUploaded, UpdateTxId, NewDownloadedFile, SetProcessing,
      RemoveDownloadedFile]
  case AddFile now filename hash size =>
    refine ⟨r, ?_, rfl, id⟩
    have hi : i < s.files.length := (List.getElem?_eq_some.1 h).1
    rw [List.getElem?_append_left hi, h]
  case SetUploaded filename =>
    rw [List.getElem?_map, h]
    refine ⟨_, rfl, ?_, fun hu => ?_⟩ <;> dsimp only
    · split <;> rfl
    · split
      · rfl
      · exact hu
  case UpdateTxId fileId txId =>
    rw [List.getElem?_map, h]
    refine ⟨_, rfl, ?_, fun hu => ?_⟩ <;> dsimp only
    · split <;> rfl
    · split <;> exact hu
  all_goals exact ⟨r, h, rfl, id⟩

/-- One method call keeps every `downloaded_files` row in place with its id
and never resets `is_removed`. -/
theorem apply_downloaded_mono (op : StoreOp) (s : Store) (i : Nat) (r : DownloadedFileRow)
    (h : s.downloaded_files[i]? = some r) :
    ∃ r2, (op.apply s).downloaded_files[i]? = some r2 ∧ r2.id = r.id ∧
      (r.is_removed = true → r2.is_removed = true) := by
  cases op <;>
    simp only [StoreOp.apply, AddFile, SetUploaded, UpdateTxId, NewDownloadedFile, SetProcessing,
      RemoveDownloadedFile]
  case NewDownloadedFile now file =>
    refine ⟨r, ?_, rfl, id⟩
    have hi : i < s.downloaded_files.length := (List.getElem?_eq_some.1 h).1
    rw [List.getElem?_append_left hi, h]
  case SetProcessing fileId =>
    rw [List.getElem?_map, h]
    refine ⟨_, rfl, ?_, fun hu => ?_⟩ <;> dsimp only
    · split <;> rfl
    · split <;> exact hu
  case RemoveDownloadedFile fileId =>
    rw [List.getElem?_map, h]
    refine ⟨_, rfl, ?_, fun hu => ?_⟩ <;> dsimp only
    · split <;> rfl
    · split
      · rfl
      · exact hu
  all_goals exact ⟨r, h, rfl, id⟩

/-- Claim C2. After any sequence of store method calls from any store, every
`files` row is still there under its id, and if its `is_uploaded` was true it
is true; every `downloaded_files` row is still there under its id, and if its
`is_removed` was true it is true. -/
theorem runOps_monotone (ops : List StoreOp) (s : Store) :
    (∀ (i : Nat) (r : FileRow), s.files[i]? = some r →
      ∃ r2, (runOps ops s).files[i]? = some r2 ∧ r2.id = r.id ∧
        (r.is_uploaded = true → r2.is_uploaded = true))
    ∧ (∀ (i : Nat) (r : DownloadedFileRow), s.downloaded_files[i]? = some r →
      ∃ r2, (runOps ops s).downloaded_files[i]? = some r2 ∧ r2.id = r.id ∧
        (r.is_removed = true → r2.is_removed = true)) := by
  induction ops generalizing s with
  | nil => exact ⟨fun i r h => ⟨r, h, rfl, id⟩, fun i r h => ⟨r, h, rfl, id⟩⟩
  | cons op ops ih =>
    have hrun : runOps (op :: ops) s = runOps ops (op.apply s) := rfl
    rw [hrun]
    constructor
    · intro i r h
      obtain ⟨r1, h1, hid1, hu1⟩ := apply_files_mono op s i r h
      obtain ⟨r2, h2, hid2, hu2⟩ := (ih (op.apply s)).1 i r1 h1
      exact ⟨r2, h2, hid2.trans hid1, fun hu => hu2 (hu1 hu)⟩
    · intro i r h
      obtain ⟨r1, h1, hid1, hu1⟩ := apply_downloaded_mono op s i r h
      obtain ⟨r2, h2, hid2, hu2⟩ := (ih (op.apply s)).2 i r1 h1
      exact ⟨r2, h2, hid2.trans hid1, fun hu => hu2 (hu1 hu)⟩

/-- Claim C2 at a store whose file 1 is uploaded, after a run that touches the
same filename, id and download again: file 1 is still uploaded. -/
theorem runOps_monotone_witness :
    exampleSettled.files[0]? = some ⟨1, "a.txt", "H1", 10, some "T1", true, 0⟩
    ∧ ∃ r2, (runOps [.AddFile 5 "a.txt" "H2" 20, .UpdateTxId 1 "T2", .SetUploaded "a.txt",
          .NewDownloadedFile 6 ⟨1, "a.txt", "H1", 10, "", false, 0⟩, .SetProcessing 1,
          .RemoveDownloadedFile 2, .ListFiles] exampleSettled).files[0]? = some r2
        ∧ r2.id = (⟨1, "a.txt", "H1", 10, some "T1", true, 0⟩ : FileRow).id
        ∧ ((⟨1, "a.txt", "H1", 10, some "T1", true, 0⟩ : FileRow).is_uploaded = true →
            r2.is_uploaded = true) :=
  ⟨rfl, (runOps_monotone _ exampleSettled).1 0 _ rfl⟩

/-- The pre-check answers true exactly when some row with the hash is not
removed, whatever its `is_processing`. -/
theorem CheckIsFileAlreadyDownloaded_iff (s : Store) (hash : String) :
    CheckIsFileAlreadyDownloaded s hash = true ↔
      ∃ r ∈ s.downloaded_files, r.hash = hash ∧ r.is_removed = false := by
  unfold CheckIsFileAlreadyDownloaded
  simp only [gt_iff_lt, decide_eq_true_eq, List.length_pos_iff_exists_mem, List.mem_filter]

/-- Claim C3. When the requested id names a File `f` and some
`downloaded_files` row with `hash = f.Hash` is not removed (processing or
not), the download handler answers 200 with status "downloaded", sends nothing
to the download channel and leaves the store as it was; as a step of the
system it changes neither the store nor the channel. -/
theorem downloadHandler_already_downloaded (σ : System) (fileIdInt : Int) (f : File)
    (hf : GetFileById σ.store fileIdInt = .ok f)
    (hex : ∃ r ∈ σ.store.downloaded_files, r.hash = f.Hash ∧ r.is_removed = false) :
    (downloadHandler σ.store σ.fs fileIdInt none).response =
        ⟨200, "downloaded", "File already downloaded or processing. File name: " ++ f.Filename,
          f.ID⟩
    ∧ (downloadHandler σ.store σ.fs fileIdInt none).sent = none
    ∧ (downloadHandler σ.store σ.fs fileIdInt none).store = σ.store
    ∧ (step (.download fileIdInt none) σ).store = σ.store
    ∧ (step (.download fileIdInt none) σ).store.downloaded_files = σ.store.downloaded_files
    ∧ (step (.download fileIdInt none) σ).downloadedFilesChan = σ.downloadedFilesChan := by
  have hc : CheckIsFileAlreadyDownloaded σ.store f.Hash = true :=
    (CheckIsFileAlreadyDownloaded_iff _ _).2 hex
  have hh : downloadHandler σ.store σ.fs fileIdInt none =
      ⟨⟨200, "downloaded", "File already downloaded or processing. File name: " ++ f.Filename,
          f.ID⟩, none, σ.store, σ.fs⟩ := by
    simp only [downloadHandler, hf, hc, if_true]
  simp only [step, hh, Option.toList, List.append_nil, and_self]

/-- Claim C3 at a store where file 1 has a download that is still processing. -/
theorem downloadHandler_already_downloaded_witness :
    (downloadHandler exampleProcessing.store exampleProcessing.fs 1 none).response =
        ⟨200, "downloaded", "File already downloaded or processing. File name: " ++ "a.txt", 1⟩
    ∧ (downloadHandler exampleProcessing.store exampleProcessing.fs 1 none).sent = none
    ∧ (downloadHandler exampleProcessing.store exampleProcessing.fs 1 none).store =
        exampleProcessing.store
    ∧ (step (.download 1 none) exampleProcessing).store = exampleProcessing.store
    ∧ (step (.download 1 none) exampleProcessing).store.downloaded_files =
        exampleProcessing.store.downloaded_files
    ∧ (step (.download 1 none) exampleProcessing).downloadedFilesChan =
        exampleProcessing.downloadedFilesChan :=
  downloadHandler_already_downloaded exampleProcessing 1 ⟨1, "a.txt", "H1", 10, "", false, 0⟩ rfl
    ⟨⟨1, 1, "a.txt", "H1", 10, 5, true, false⟩, by simp [exampleProcessing], rfl, rfl⟩

/-- Once a File exists the pre-check alone does not keep one row per hash.
From a store with one File and no `downloaded_files` row, two download
requests for the File that both run the pre-check before the worker inserts,
followed by the worker serving both, leave two rows with the hash `H1` and
`is_removed = false`; the same happens from the fresh system once the File has
been uploaded. -/
theorem download_precheck_race :
    exampleOneFile.store.downloaded_files = []
    ∧ (run raceTrace exampleOneFile).store.downloaded_files =
        [⟨1, 1, "a.txt", "H1", 10, 5, false, false⟩, ⟨2, 1, "a.txt", "H1", 10, 6, false, false⟩]
    ∧ ((run raceTrace exampleOneFile).store.downloaded_files.filter
        (fun r => r.hash = "H1" ∧ r.is_removed = false)).length = 2
    ∧ ((run (.upload 0 (.ok ("a.txt", 10)) none (.ok "H1") :: raceTrace)
        System.init).store.downloaded_files.filter
        (fun r => r.hash = "H1" ∧ r.is_removed = false)).length = 2 := by
  refine ⟨rfl, ?_, ?_, ?_⟩ <;> decide

/-- Claim C5 fails on the code when the move fails. The worker calls
`SetProcessing` before `os.Rename`: with a successful download and a refused
rename, the record created for the dequeued File has `is_processing = false`
although nothing was moved into `./downloads/`, and the worker has returned.
With a failed download the record keeps `is_processing = true`. -/
theorem downloadWorker_flips_before_move :
    (downloadWorker exampleOneFile.store [] 5 ⟨1, "a.txt", "H1", 10, "", false, 0⟩ (.ok true)
        (fun _ => true)) =
      ⟨⟨exampleOneFile.store.files, [⟨1, 1, "a.txt", "H1", 10, 5, false, false⟩], 1, 1⟩,
        ["./a.txt"], false⟩
    ∧ (downloadWorker exampleOneFile.store [] 5 ⟨1, "a.txt", "H1", 10, "", false, 0⟩
        (.error "no node") (fun _ => false)) =
      ⟨⟨exampleOneFile.store.files, [⟨1, 1, "a.txt", "H1", 10, 5, true, false⟩], 1, 1⟩,
        [], false⟩ := by
  constructor <;> decide

/-- Claim C10 fails on the code. In the sweeper, when the deletion of the first
expired record fails, the loop returns: the second record, whose file is on
disk and could be deleted, is not marked removed, and the goroutine has ended.
In the poller, when the status check of the first file fails, the second file,
whose check would answer true, is not marked uploaded, and the goroutine has
ended. -/
theorem first_error_ends_the_goroutine :
    sweeperTick exampleTwoExpired ["./downloads/b.txt"] (2 * Hour) (fun _ => false) =
      ⟨exampleTwoExpired, ["./downloads/b.txt"], false⟩
    ∧ pollerTick exampleTwoPending ["./a.txt", "./b.txt"]
        (fun _ hash => if hash = "H1" then .error "timeout" else .ok true) (fun _ => false) =
      ⟨exampleTwoPending, ["./a.txt", "./b.txt"], false⟩
    ∧ (step (.sweeper (3 * Hour) (fun _ => false))
        (step (.sweeper (2 * Hour) (fun _ => false))
          ⟨exampleTwoExpired, ["./downloads/b.txt"], [], [], true, true, true, true⟩)).store =
      exampleTwoExpired := by
  refine ⟨?_, ?_, ?_⟩ <;> decide

/-- The files handed to the poller loop as the image of the selected rows. -/
theorem GetUnuploadedFiles_eq_map (s : Store) :
    GetUnuploadedFiles s =
      (s.files.filter (fun r => r.is_uploaded = false ∧ r.tx_id ≠ none)).map
        (fun r => (⟨r.id, r.filename, r.hash, r.size, r.tx_id.getD "", false, 0⟩ : File)) := by
  unfold GetUnuploadedFiles
  rw [foldl_append_eq_map]
  simp

/-- The poller loop that runs to its end leaves `downloaded_files` alone and
changes in `files` only `is_uploaded`, which ends up true exactly for the rows
that had it true or share their filename with a file of the batch whose
status check answered true. -/
theorem pollerLoop_effect (check : Nat → String → Except String Bool) (ioErr : String → Bool)
    (files : List File) :
    ∀ (k : Nat) (s : Store) (fs : FS), (pollerLoop check ioErr k files s fs).running = true →
      (pollerLoop check ioErr k files s fs).store.downloaded_files = s.downloaded_files
      ∧ ∀ (i : Nat) (r : FileRow), s.files[i]? = some r →
        ∃ u, (pollerLoop check ioErr k files s fs).store.files[i]? =
            some ⟨r.id, r.filename, r.hash, r.size, r.tx_id, u, r.created_at⟩
          ∧ (u = true ↔ r.is_uploaded = true ∨
              ∃ (j : Nat) (f : File), files[j]? = some f ∧ f.Filename = r.filename ∧
                check (k + j) f.Hash = .ok true) := by
  induction files with
  | nil =>
    intro k s fs _
    refine ⟨rfl, fun i r h => ⟨r.is_uploaded, h, ?_⟩⟩
    simp
  | cons file rest ih =>
    intro k s fs hrun
    rw [pollerLoop] at hrun ⊢
    cases hck : check k file.Hash with
    | error e => simp [hck] at hrun
    | ok isDone =>
      cases isDone with
      | false =>
        simp only [hck, Bool.false_eq_true, if_false] at hrun ⊢
        obtain ⟨hd, hf⟩ := ih (k + 1) s fs hrun
        refine ⟨hd, fun i r h => ?_⟩
        obtain ⟨u, hu, hiff⟩ := hf i r h
        refine ⟨u, hu, hiff.trans ?_⟩
        constructor
        · rintro (h1 | ⟨j, f, hj, hn, hc⟩)
          · exact Or.inl h1
          · exact Or.inr ⟨j + 1, f, by simpa using hj, hn, by rw [← hc]; congr 1; omega⟩
        · rintro (h1 | ⟨j, f, hj, hn, hc⟩)
          · exact Or.inl h1
          · cases j with
            | zero =>
              simp only [List.getElem?_cons_zero, Option.some.injEq] at hj
              subst hj
              rw [Nat.add_zero, hck] at hc
              simp at hc
            | succ j =>
              exact Or.inr ⟨j, f, by simpa using hj, hn, by rw [← hc]; congr 1; omega⟩
      | true =>
        simp only [hck, if_true] at hrun ⊢
        cases hrm : osRemove fs ioErr ("./" ++ file.Filename) with
        | error e => simp [hrm] at hrun
        | ok fs1 =>
          simp only [hrm] at hrun ⊢
          obtain ⟨hd, hf⟩ := ih (k + 1) (SetUploaded s file.Filename) fs1 hrun
          refine ⟨hd, fun i r h => ?_⟩
          by_cases hname : r.filename = file.Filename
          · have h1 : (SetUploaded s file.Filename).files[i]? =
                some ⟨r.id, r.filename, r.hash, r.size, r.tx_id, true, r.created_at⟩ := by
              simp [SetUploaded, List.getElem?_map, h, hname]
            obtain ⟨u, hu, hiff⟩ := hf i _ h1
            refine ⟨u, hu, ?_⟩
            have hu1 : u = true := hiff.2 (Or.inl rfl)
            constructor
            · intro _
              exact Or.inr ⟨0, file, by simp, hname.symm, by simpa using hck⟩
            · intro _
              exact hu1
          · have h1 : (SetUploaded s file.Filename).files[i]? = some r := by
              simp [SetUploaded, List.getElem?_map, h, hname]
            obtain ⟨u, hu, hiff⟩ := hf i _ h1
            refine ⟨u, hu, hiff.trans ?_⟩
            constructor
            · rintro (h1 | ⟨j, f, hj, hn, hc⟩)
              · exact Or.inl h1
              · exact Or.inr ⟨j + 1, f, by simpa using hj, hn, by rw [← hc]; congr 1; omega⟩
            · rintro (h1 | ⟨j, f, hj, hn, hc⟩)
              · exact Or.inl h1
              · cases j with
                | zero =>
                  simp only [List.getElem?_cons_zero, Option.some.injEq] at hj
                  subst hj
                  exact absurd hn.symm hname
                | succ j =>
                  exact Or.inr ⟨j, f, by simpa using hj, hn, by rw [← hc]; congr 1; omega⟩

/-- Claim C6 as stated fails on the code. `SetUploaded` matches on the
filename: with two rows named `a.txt`, of which only the first has a transfer
id and a confirmed hash, a tick without any error also sets `is_uploaded` on
the second row, which was not selected and whose hash no check confirmed. -/
theorem pollerTick_marks_unconfirmed_row :
    (pollerTick exampleSameName ["./a.txt"] (fun _ hash => .ok (decide (hash = "H1")))
        (fun _ => false)).running = true
    ∧ GetUnuploadedFiles exampleSameName = [⟨1, "a.txt", "H1", 10, "T1", false, 0⟩]
    ∧ exampleSameName.files[1]? = some ⟨2, "a.txt", "H2", 20, none, false, 5⟩
    ∧ (pollerTick exampleSameName ["./a.txt"] (fun _ hash => .ok (decide (hash = "H1")))
        (fun _ => false)).store.files[1]? = some ⟨2, "a.txt", "H2", 20, none, true, 5⟩
    ∧ ¬ ∀ (i : Nat) (r r2 : FileRow), exampleSameName.files[i]? = some r →
        (pollerTick exampleSameName ["./a.txt"] (fun _ hash => .ok (decide (hash = "H1")))
          (fun _ => false)).store.files[i]? = some r2 →
        (r2.is_uploaded = true ↔ r.is_uploaded = true ∨
          (r.is_uploaded = false ∧ r.tx_id ≠ none ∧
            ∃ j : Nat, (fun (_ : Nat) (hash : String) =>
              (.ok (decide (hash = "H1")) : Except String Bool)) j r.hash = .ok true)) := by
  refine ⟨by decide, by decide, by decide, by decide, fun h => ?_⟩
  have h2 := (h 1 ⟨2, "a.txt", "H2", 20, none, false, 5⟩ ⟨2, "a.txt", "H2", 20, none, true, 5⟩
    (by decide) (by decide)).1 rfl
  simp at h2

/-- Claim C6, amended. After a poller tick in which no status check and no
deletion returned an error, `downloaded_files` is unchanged, every `files` row
keeps all its columns but `is_uploaded`, and `is_uploaded` is true if and only
if it was true before the tick or some row selected by the tick
(`is_uploaded = false` and `tx_id` set) has the same filename and the status
check on that row's hash answered true. -/
theorem pollerTick_uploaded_iff (s : Store) (fs : FS) (check : Nat → String → Except String Bool)
    (ioErr : String → Bool) (hrun : (pollerTick s fs check ioErr).running = true) :
    (pollerTick s fs check ioErr).store.downloaded_files = s.downloaded_files
    ∧ ∀ (i : Nat) (r : FileRow), s.files[i]? = some r →
      ∃ u, (pollerTick s fs check ioErr).store.files[i]? =
          some ⟨r.id, r.filename, r.hash, r.size, r.tx_id, u, r.created_at⟩
        ∧ (u = true ↔ r.is_uploaded = true ∨
            ∃ (j : Nat) (q : FileRow),
              (s.files.filter (fun q => q.is_uploaded = false ∧ q.tx_id ≠ none))[j]? = some q ∧
              q.filename = r.filename ∧ check j q.hash = .ok true) := by
  unfold pollerTick at hrun ⊢
  obtain ⟨hd, hf⟩ := pollerLoop_effect check ioErr (GetUnuploadedFiles s) 0 s fs hrun
  refine ⟨hd, fun i r h => ?_⟩
  obtain ⟨u, hu, hiff⟩ := hf i r h
  refine ⟨u, hu, hiff.trans ?_⟩
  rw [GetUnuploadedFiles_eq_map]
  constructor
  · rintro (h1 | ⟨j, f, hj, hn, hc⟩)
    · exact Or.inl h1
    · rw [List.getElem?_map] at hj
      cases hq : (s.files.filter (fun q => q.is_uploaded = false ∧ q.tx_id ≠ none))[j]? with
      | none =>
        rw [hq] at hj
        simp at hj
      | some q =>
        rw [hq] at hj
        simp only [Option.map_some', Option.some.injEq] at hj
        subst hj
        exact Or.inr ⟨j, q, hq, hn, by simpa using hc⟩
  · rintro (h1 | ⟨j, q, hj, hn, hc⟩)
    · exact Or.inl h1
    · exact Or.inr ⟨j, _, by rw [List.getElem?_map, hj]; rfl, hn, by simpa using hc⟩

/-- Claim C6, amended, at the store with two rows named `a.txt`: the tick runs
to its end, and the second row ends up uploaded exactly because the selected
first row has the same filename and a confirmed hash. -/
theorem pollerTick_uploaded_iff_witness :
    (pollerTick exampleSameName ["./a.txt"] (fun _ hash => .ok (decide (hash = "H1")))
        (fun _ => false)).running = true
    ∧ ∃ u, (pollerTick exampleSameName ["./a.txt"] (fun _ hash => .ok (decide (hash = "H1")))
          (fun _ => false)).store.files[1]? = some ⟨2, "a.txt", "H2", 20, none, u, 5⟩
        ∧ (u = true ↔ false = true ∨
            ∃ (j : Nat) (q : FileRow),
              (exampleSameName.files.filter
                (fun q => q.is_uploaded = false ∧ q.tx_id ≠ none))[j]? = some q ∧
              q.filename = "a.txt" ∧
              (fun (_ : Nat) (hash : String) =>
                (.ok (decide (hash = "H1")) : Except String Bool)) j q.hash = .ok true) :=
  ⟨by decide, (pollerTick_uploaded_iff exampleSameName ["./a.txt"]
      (fun _ hash => .ok (decide (hash = "H1"))) (fun _ => false) (by decide)).2 1
      ⟨2, "a.txt", "H2", 20, none, false, 5⟩ rfl⟩

/-- Claim C8. The insertion the download worker makes on dequeue appends one
row to `downloaded_files`, with `file_id`, `filename`, `hash` and `size` of
the dequeued File, `is_processing = true` and `is_removed = false`; the rows
that were there come first and unchanged, `files` is unchanged, the new row's
id is none of the old ids when those are at most the AUTOINCREMENT counter,
and apart from the later `SetProcessing` this is all the worker iteration does
to the store. -/
theorem NewDownloadedFile_adds_one_row (s : Store) (fs : FS) (now : Time) (f : File)
    (download : Except String Bool) (ioErr : String → Bool) :
    (NewDownloadedFile s now f).downloaded_files =
        s.downloaded_files ++
          [⟨s.downloaded_files_seq + 1, f.ID, f.Filename, f.Hash, f.Size, now, true, false⟩]
    ∧ (NewDownloadedFile s now f).downloaded_files.length = s.downloaded_files.length + 1
    ∧ (NewDownloadedFile s now f).files = s.files
    ∧ ((∀ r ∈ s.downloaded_files, r.id ≤ s.downloaded_files_seq) →
        ∀ r ∈ s.downloaded_files, r.id ≠ s.downloaded_files_seq + 1)
    ∧ ((downloadWorker s fs now f download ioErr).store = NewDownloadedFile s now f
        ∨ (downloadWorker s fs now f download ioErr).store =
            SetProcessing (NewDownloadedFile s now f) f.ID) := by
  refine ⟨rfl, by simp [NewDownloadedFile], rfl, ?_, ?_⟩
  · intro hle r hr
    have := hle r hr
    omega
  unfold downloadWorker
  cases download with
  | error e => exact Or.inl rfl
  | ok isDone =>
    cases isDone with
    | false => exact Or.inl rfl
    | true =>
      right
      simp only [if_true]
      split <;> rfl

/-- Claim C8 at the store with three downloads of file 7: no old row has the
id 4 that the next insertion takes. -/
theorem NewDownloadedFile_adds_one_row_witness :
    (∀ r ∈ exampleDownloads.downloaded_files, r.id ≤ exampleDownloads.downloaded_files_seq)
    ∧ ∀ r ∈ exampleDownloads.downloaded_files, r.id ≠ exampleDownloads.downloaded_files_seq + 1 :=
  ⟨by decide,
   (NewDownloadedFile_adds_one_row exampleDownloads [] 0 ⟨7, "d", "H", 3, "", false, 0⟩
      (.ok true) (fun _ => false)).2.2.2.1 (by decide)⟩

/-- A deletion that succeeds leaves the other paths and takes the path away. -/
theorem osRemove_ok (fs fs1 : FS) (ioErr : String → Bool) (path : String)
    (h : osRemove fs ioErr path = .ok fs1) : fs1 = fs.filter (fun p => p ≠ path) := by
  unfold osRemove at h
  split at h
  · cases h
  · split at h
    · cases h
      rfl
    · cases h

/-- The sweeper loop that runs to its end has marked removed exactly the rows
whose id is in the batch, has deleted the served copy of every file of the
batch, created no path and left `files` alone. -/
theorem sweeperLoop_effect (ioErr : String → Bool) (files : List File) :
    ∀ (s : Store) (fs : FS), (sweeperLoop ioErr files s fs).running = true →
      (sweeperLoop ioErr files s fs).store.files = s.files
      ∧ (sweeperLoop ioErr files s fs).store.downloaded_files =
          s.downloaded_files.map (fun r => if r.id ∈ files.map (fun f => f.ID) then
            ⟨r.id, r.file_id, r.filename, r.hash, r.size, r.downloaded_at, r.is_processing, true⟩
            else r)
      ∧ (∀ f ∈ files, "./downloads/" ++ f.Filename ∉ (sweeperLoop ioErr files s fs).fs)
      ∧ (∀ p ∈ (sweeperLoop ioErr files s fs).fs, p ∈ fs) := by
  induction files with
  | nil =>
    intro s fs _
    refine ⟨rfl, ?_, ?_, fun p hp => hp⟩
    · simp [sweeperLoop]
    · intro f hf
      cases hf
  | cons file rest ih =>
    intro s fs hrun
    rw [sweeperLoop] at hrun ⊢
    cases hrm : osRemove fs ioErr ("./downloads/" ++ file.Filename) with
    | error e => simp [hrm] at hrun
    | ok fs1 =>
      simp only [hrm] at hrun ⊢
      have hfs1 := osRemove_ok fs fs1 ioErr _ hrm
      obtain ⟨h1, h2, h3, h4⟩ := ih (RemoveDownloadedFile s file.ID) fs1 hrun
      refine ⟨h1, ?_, ?_, ?_⟩
      · rw [h2]
        simp only [RemoveDownloadedFile, List.map_map]
        apply List.map_congr_left
        intro r _
        simp only [Function.comp, List.map_cons, List.mem_cons]
        by_cases hr : r.id = file.ID
        · simp [hr]
        · simp [hr]
      · intro f hf
        rcases List.mem_cons.1 hf with rfl | hf
        · intro hmem
          have := h4 _ hmem
          rw [hfs1] at this
          simp at this
        · exact h3 f hf
      · intro p hp
        have := h4 p hp
        rw [hfs1] at this
        exact (List.mem_filter.1 this).1

/-- Claim C9. After a sweeper tick in which every deletion succeeded, on a
table whose ids are the primary key: each row selected as expired
(`is_removed = false`, `is_processing = false`, `downloaded_at` more than one
hour before `now`) is the same row with `is_removed = true` and its path
`./downloads/<filename>` does not exist; each other row is unchanged; `files`
is unchanged. -/
theorem sweeperTick_removes_expired (s : Store) (fs : FS) (now : Time) (ioErr : String → Bool)
    (hnd : (s.downloaded_files.map (fun r => r.id)).Nodup)
    (hrun : (sweeperTick s fs now ioErr).running = true) :
    (sweeperTick s fs now ioErr).store.files = s.files
    ∧ ∀ (i : Nat) (r : DownloadedFileRow), s.downloaded_files[i]? = some r →
      ((r.is_removed = false ∧ r.is_processing = false ∧ r.downloaded_at < now - Hour) →
        (sweeperTick s fs now ioErr).store.downloaded_files[i]? =
            some ⟨r.id, r.file_id, r.filename, r.hash, r.size, r.downloaded_at,
              r.is_processing, true⟩
          ∧ "./downloads/" ++ r.filename ∉ (sweeperTick s fs now ioErr).fs)
      ∧ (¬ (r.is_removed = false ∧ r.is_processing = false ∧ r.downloaded_at < now - Hour) →
        (sweeperTick s fs now ioErr).store.downloaded_files[i]? = some r) := by
  unfold sweeperTick at hrun ⊢
  obtain ⟨h1, h2, h3, _⟩ := sweeperLoop_effect ioErr _ s fs hrun
  refine ⟨h1, fun i r hi => ?_⟩
  have hr : r ∈ s.downloaded_files := List.getElem?_mem hi
  have hsub : now + -(1 * Hour) = now - Hour := by ring
  have hsel : r.id ∈ (GetExpiredDownloadedFiles s now (1 * Hour)).map (fun f => f.ID) ↔
      (r.is_removed = false ∧ r.is_processing = false ∧ r.downloaded_at < now - Hour) := by
    rw [GetExpiredDownloadedFiles_eq_map, hsub]
    simp only [List.map_map, List.mem_map, List.mem_filter, Function.comp, decide_eq_true_eq]
    constructor
    · rintro ⟨q, ⟨hq, hexp⟩, hid⟩
      have : q = r := List.inj_on_of_nodup_map hnd hq hr hid
      exact this ▸ hexp
    · intro hexp
      exact ⟨r, ⟨hr, hexp⟩, rfl⟩
  rw [h2, List.getElem?_map, hi]
  constructor
  · intro hexp
    refine ⟨by simp only [Option.map_some', if_pos (hsel.2 hexp)], ?_⟩
    apply h3 ⟨r.id, r.filename, r.hash, r.size, "", false, 0⟩
    rw [GetExpiredDownloadedFiles_eq_map, hsub]
    exact List.mem_map.2 ⟨r, List.mem_filter.2 ⟨hr, by simpa using hexp⟩, rfl⟩
  · intro hexp
    have : r.id ∉ (GetExpiredDownloadedFiles s now (1 * Hour)).map (fun f => f.ID) :=
      fun h => hexp (hsel.1 h)
    simp only [Option.map_some', if_neg this]

/-- Claim C9 at a store with two expired downloads whose served copies are on
disk: the tick runs to its end, the first record is marked removed and its
served copy is gone. -/
theorem sweeperTick_removes_expired_witness :
    (exampleTwoExpired.downloaded_files.map (fun r => r.id)).Nodup
    ∧ (sweeperTick exampleTwoExpired ["./downloads/a.txt", "./downloads/b.txt"] (2 * Hour)
        (fun _ => false)).running = true
    ∧ (sweeperTick exampleTwoExpired ["./downloads/a.txt", "./downloads/b.txt"] (2 * Hour)
        (fun _ => false)).store.downloaded_files[0]? =
          some ⟨1, 1, "a.txt", "H1", 10, 0, false, true⟩
    ∧ "./downloads/" ++ "a.txt" ∉ (sweeperTick exampleTwoExpired
        ["./downloads/a.txt", "./downloads/b.txt"] (2 * Hour) (fun _ => false)).fs :=
  ⟨by decide, by decide,
   (((sweeperTick_removes_expired exampleTwoExpired ["./downloads/a.txt", "./downloads/b.txt"]
      (2 * Hour) (fun _ => false) (by decide) (by decide)).2 0
      ⟨1, 1, "a.txt", "H1", 10, 0, false, false⟩ rfl).1 (by decide))⟩

/-- The poller loop, finished or not, changes neither an id nor a transfer id
nor the AUTOINCREMENT counter of `files`. -/
theorem pollerLoop_txView (check : Nat → String → Except String Bool) (ioErr : String → Bool)
    (files : List File) :
    ∀ (k : Nat) (s : Store) (fs : FS),
      txView (pollerLoop check ioErr k files s fs).store = txView s
      ∧ (pollerLoop check ioErr k files s fs).store.files_seq = s.files_seq := by
  induction files with
  | nil => intro k s fs; exact ⟨rfl, rfl⟩
  | cons file rest ih =>
    intro k s fs
    have hset : txView (SetUploaded s file.Filename) = txView s := by
      simp only [txView, SetUploaded, List.map_map]
      apply List.map_congr_left
      intro r _
      simp only [Function.comp]
      split <;> rfl
    rw [pollerLoop]
    cases check k file.Hash with
    | error e => exact ⟨rfl, rfl⟩
    | ok isDone =>
      cases isDone with
      | false => simpa using ih (k + 1) s fs
      | true =>
        simp only [if_true]
        cases osRemove fs ioErr ("./" ++ file.Filename) with
        | error e => exact ⟨hset, rfl⟩
        | ok fs1 =>
          obtain ⟨h1, h2⟩ := ih (k + 1) (SetUploaded s file.Filename) fs1
          exact ⟨h1.trans hset, h2⟩

/-- The sweeper loop, finished or not, leaves `files` and its counter alone. -/
theorem sweeperLoop_files (ioErr : String → Bool) (files : List File) :
    ∀ (s : Store) (fs : FS),
      (sweeperLoop ioErr files s fs).store.files = s.files
      ∧ (sweeperLoop ioErr files s fs).store.files_seq = s.files_seq := by
  induction files with
  | nil => intro s fs; exact ⟨rfl, rfl⟩
  | cons file rest ih =>
    intro s fs
    rw [sweeperLoop]
    cases osRemove fs ioErr ("./downloads/" ++ file.Filename) with
    | error e => exact ⟨rfl, rfl⟩
    | ok fs1 => exact ih (RemoveDownloadedFile s file.ID) fs1

/-- An iteration of the download worker leaves `files` and its counter alone. -/
theorem downloadWorker_files (s : Store) (fs : FS) (now : Time) (f : File)
    (download : Except String Bool) (ioErr : String → Bool) :
    (downloadWorker s fs now f download ioErr).store.files = s.files
    ∧ (downloadWorker s fs now f download ioErr).store.files_seq = s.files_seq := by
  unfold downloadWorker
  cases download with
  | error e => exact ⟨rfl, rfl⟩
  | ok isDone =>
    cases isDone with
    | false => exact ⟨rfl, rfl⟩
    | true =>
      simp only [if_true]
      split <;> exact ⟨rfl, rfl⟩

/-- The download handler only reads. -/
theorem downloadHandler_store (s : Store) (fs : FS) (fileIdInt : Int) (parseErr : Option String) :
    (downloadHandler s fs fileIdInt parseErr).store = s := by
  unfold downloadHandler
  cases parseErr with
  | some e => rfl
  | none =>
    dsimp only
    cases GetFileById s fileIdInt with
    | error e => rfl
    | ok file =>
      dsimp only
      split <;> rfl

/-- The upload handler either leaves the store and sends nothing, or inserts
one row with `AddFile` and sends the File that `AddFile` returned. -/
theorem uploadHandler_cases (s : Store) (fs : FS) (now : Time) (form : Except String (String × Int))
    (saveErr : Option String) (hash : Except String String) :
    ((uploadHandler s fs now form saveErr hash).store = s
      ∧ (uploadHandler s fs now form saveErr hash).sent = none)
    ∨ ∃ filename h size,
      (uploadHandler s fs now form saveErr hash).store = (AddFile s now filename h size).2
      ∧ (uploadHandler s fs now form saveErr hash).sent = some (AddFile s now filename h size).1 := by
  unfold uploadHandler
  cases form with
  | error e => exact Or.inl ⟨rfl, rfl⟩
  | ok p =>
    obtain ⟨filename, size⟩ := p
    cases saveErr with
    | some e => exact Or.inl ⟨rfl, rfl⟩
    | none =>
      cases hash with
      | error e => exact Or.inl ⟨rfl, rfl⟩
      | ok h => exact Or.inr ⟨filename, h, size, rfl, rfl⟩

/-- The invariant only looks at ids, transfer ids, the counter and the upload
channel. -/
theorem UploadInv_of_eq (σ σ2 : System) (hv : txView σ2.store = txView σ.store)
    (hs : σ2.store.files_seq = σ.store.files_seq) (hc : σ2.newFilesChan = σ.newFilesChan)
    (h : UploadInv σ) : UploadInv σ2 := by
  unfold UploadInv
  rw [hv, hs, hc]
  exact h

/-- The upload worker step when the worker is running and a sender waits. -/
theorem step_uploadWorker_cons (σ : System) (upload : Except String String) (newFile : File)
    (rest : List File) (hr : σ.uploadWorkerRunning = true) (hc : σ.newFilesChan = newFile :: rest) :
    step (.uploadWorker upload) σ =
      ⟨(uploadWorker σ.store σ.fs newFile upload).store, (uploadWorker σ.store σ.fs newFile upload).fs,
        rest, σ.downloadedFilesChan, (uploadWorker σ.store σ.fs newFile upload).running,
        σ.downloadWorkerRunning, σ.sweeperRunning, σ.pollerRunning⟩ := by
  simp only [step, hr, hc]

/-- The upload worker step when the worker has returned or nobody waits. -/
theorem step_uploadWorker_idle (σ : System) (upload : Except String String)
    (h : σ.uploadWorkerRunning = false ∨ σ.newFilesChan = []) :
    step (.uploadWorker upload) σ = σ := by
  rcases h with h | h
  · simp only [step, h]
  · cases hr : σ.uploadWorkerRunning <;> simp only [step, h, hr]

/-- Every step but the upload handler and the upload worker keeps ids,
transfer ids, the counter of `files` and the upload channel. -/
theorem step_other_frame (a : Action) (σ : System)
    (hup : ∀ now form saveErr hash, a ≠ .upload now form saveErr hash)
    (hw : ∀ upload, a ≠ .uploadWorker upload) :
    txView (step a σ).store = txView σ.store
    ∧ (step a σ).store.files_seq = σ.store.files_seq
    ∧ (step a σ).newFilesChan = σ.newFilesChan := by
  cases a with
  | upload now form saveErr hash => exact absurd rfl (hup now form saveErr hash)
  | uploadWorker upload => exact absurd rfl (hw upload)
  | poller check ioErr =>
    cases hr : σ.pollerRunning
    · simp only [step, hr, and_self]
    · simp only [step, hr, pollerTick]
      exact ⟨(pollerLoop_txView check ioErr _ 0 σ.store σ.fs).1,
        (pollerLoop_txView check ioErr _ 0 σ.store σ.fs).2, trivial⟩
  | download fileIdInt parseErr =>
    simp only [step, downloadHandler_store, and_self]
  | downloadWorker now download ioErr =>
    cases hr : σ.downloadWorkerRunning
    · simp only [step, hr, and_self]
    · cases hc : σ.downloadedFilesChan with
      | nil => simp only [step, hr, hc, and_self]
      | cons f rest =>
        simp only [step, hr, hc, txView, (downloadWorker_files σ.store σ.fs now f download ioErr).1,
          (downloadWorker_files σ.store σ.fs now f download ioErr).2, and_self]
  | sweeper now ioErr =>
    cases hr : σ.sweeperRunning
    · simp only [step, hr, and_self]
    · simp only [step, hr, sweeperTick, txView, (sweeperLoop_files ioErr _ σ.store σ.fs).1,
        (sweeperLoop_files ioErr _ σ.store σ.fs).2, and_self]

/-- The invariant holds in the fresh system. -/
theorem UploadInv_init : UploadInv System.init := by
  simp [UploadInv, System.init, Store.empty, txView]

/-- Every step preserves the invariant of the upload path. -/
theorem step_preserves_UploadInv (a : Action) (σ : System) (h : UploadInv σ) :
    UploadInv (step a σ) := by
  cases a with
  | upload now form saveErr hash =>
    rcases uploadHandler_cases σ.store σ.fs now form saveErr hash with
      ⟨hs, hsent⟩ | ⟨fn, hh, sz, hs, hsent⟩
    · apply UploadInv_of_eq σ _ _ _ _ h
      · simp only [step, hs]
      · simp only [step, hs]
      · simp only [step, hsent, Option.toList, List.append_nil]
    · obtain ⟨h1, h2, h3, h4, h5⟩ := h
      have hv : txView (step (.upload now form saveErr hash) σ).store =
          txView σ.store ++ [(σ.store.files_seq + 1, none)] := by
        simp only [step, hs, AddFile, txView, List.map_append, List.map_cons, List.map_nil]
      have hq : (step (.upload now form saveErr hash) σ).store.files_seq =
          σ.store.files_seq + 1 := by
        simp only [step, hs, AddFile]
      have hc : (step (.upload now form saveErr hash) σ).newFilesChan =
          σ.newFilesChan ++ [⟨σ.store.files_seq + 1, fn, "", sz, "", false, now⟩] := by
        simp only [step, hsent, AddFile, Option.toList]
      unfold UploadInv
      rw [hv, hq, hc]
      refine ⟨?_, ?_, ?_, ?_, ?_⟩
      · intro p hp
        rcases List.mem_append.1 hp with hp | hp
        · have := h1 p hp
          omega
        · simp only [List.mem_singleton] at hp
          subst hp
          exact le_refl _
      · rw [List.map_append, List.nodup_append]
        refine ⟨h2, by simp, ?_⟩
        intro x hx hx2
        simp only [List.map_cons, List.map_nil, List.mem_singleton] at hx2
        obtain ⟨p, hp, rfl⟩ := List.mem_map.1 hx
        have := h1 p hp
        omega
      · intro f hf
        rcases List.mem_append.1 hf with hf | hf
        · have := h3 f hf
          omega
        · simp only [List.mem_singleton] at hf
          subst hf
          exact le_refl _
      · rw [List.map_append, List.nodup_append]
        refine ⟨h4, by simp, ?_⟩
        intro x hx hx2
        simp only [List.map_cons, List.map_nil, List.mem_singleton] at hx2
        obtain ⟨f, hf, rfl⟩ := List.mem_map.1 hx
        have := h3 f hf
        omega
      · intro f hf p hp hid
        rcases List.mem_append.1 hp with hp | hp
        · rcases List.mem_append.1 hf with hf | hf
          · exact h5 f hf p hp hid
          · simp only [List.mem_singleton] at hf
            subst hf
            have := h1 p hp
            simp only at hid
            omega
        · simp only [List.mem_singleton] at hp
          subst hp
          rfl
  | uploadWorker upload =>
    cases hr : σ.uploadWorkerRunning
    · rw [step_uploadWorker_idle σ upload (Or.inl hr)]
      exact h
    · cases hc : σ.newFilesChan with
      | nil =>
        rw [step_uploadWorker_idle σ upload (Or.inr hc)]
        exact h
      | cons newFile rest =>
        rw [step_uploadWorker_cons σ upload newFile rest hr hc]
        obtain ⟨h1, h2, h3, h4, h5⟩ := h
        rw [hc] at h3 h4 h5
        simp only [List.map_cons, List.nodup_cons, List.mem_map, not_exists, not_and] at h4
        have hkeep : UploadInv ⟨σ.store, σ.fs, rest, σ.downloadedFilesChan, false,
            σ.downloadWorkerRunning, σ.sweeperRunning, σ.pollerRunning⟩ :=
          ⟨h1, h2, fun f hf => h3 f (List.mem_cons_of_mem _ hf), h4.2,
            fun f hf => h5 f (List.mem_cons_of_mem _ hf)⟩
        unfold uploadWorker
        cases upload with
        | error e => exact hkeep
        | ok tx =>
          dsimp only
          split
          · have hv : txView (UpdateTxId σ.store newFile.ID tx) =
                (txView σ.store).map (fun p => if p.1 = newFile.ID then (p.1, some tx) else p) := by
              simp only [txView, UpdateTxId, List.map_map]
              apply List.map_congr_left
              intro r _
              simp only [Function.comp]
              split <;> rfl
            have hfst : (txView (UpdateTxId σ.store newFile.ID tx)).map Prod.fst =
                (txView σ.store).map Prod.fst := by
              rw [hv, List.map_map]
              apply List.map_congr_left
              intro p _
              simp only [Function.comp]
              split <;> rfl
            refine ⟨?_, ?_, fun f hf => h3 f (List.mem_cons_of_mem _ hf), h4.2, ?_⟩
            · intro p hp
              have hp1 : p.1 ∈ (txView (UpdateTxId σ.store newFile.ID tx)).map Prod.fst :=
                List.mem_map_of_mem _ hp
              rw [hfst] at hp1
              obtain ⟨q, hq, hqp⟩ := List.mem_map.1 hp1
              have := h1 q hq
              show p.1 ≤ σ.store.files_seq
              omega
            · show ((txView (UpdateTxId σ.store newFile.ID tx)).map Prod.fst).Nodup
              rw [hfst]
              exact h2
            · intro f hf p hp hid
              change p ∈ txView (UpdateTxId σ.store newFile.ID tx) at hp
              rw [hv] at hp
              obtain ⟨q, hq, hqp⟩ := List.mem_map.1 hp
              have hne : f.ID ≠ newFile.ID := fun e => h4.1 f hf e
              by_cases hqi : q.1 = newFile.ID
              · simp only [hqi, if_true] at hqp
                subst hqp
                exact absurd hid.symm hne
              · simp only [hqi, if_false] at hqp
                subst hqp
                exact h5 f (List.mem_cons_of_mem _ hf) q hq hid
          · exact ⟨h1, h2, fun f hf => h3 f (List.mem_cons_of_mem _ hf), h4.2,
              fun f hf => h5 f (List.mem_cons_of_mem _ hf)⟩
  | poller check ioErr =>
    obtain ⟨hv, hs, hc⟩ := step_other_frame (.poller check ioErr) σ
      (fun _ _ _ _ e => by cases e) (fun _ e => by cases e)
    exact UploadInv_of_eq σ _ hv hs hc h
  | download fileIdInt parseErr =>
    obtain ⟨hv, hs, hc⟩ := step_other_frame (.download fileIdInt parseErr) σ
      (fun _ _ _ _ e => by cases e) (fun _ e => by cases e)
    exact UploadInv_of_eq σ _ hv hs hc h
  | downloadWorker now download ioErr =>
    obtain ⟨hv, hs, hc⟩ := step_other_frame (.downloadWorker now download ioErr) σ
      (fun _ _ _ _ e => by cases e) (fun _ e => by cases e)
    exact UploadInv_of_eq σ _ hv hs hc h
  | sweeper now ioErr =>
    obtain ⟨hv, hs, hc⟩ := step_other_frame (.sweeper now ioErr) σ
      (fun _ _ _ _ e => by cases e) (fun _ e => by cases e)
    exact UploadInv_of_eq σ _ hv hs hc h

/-- The invariant of the upload path holds after every run from a state where
it holds. -/
theorem run_preserves_UploadInv (as : List Action) (σ : System) (h : UploadInv σ) :
    UploadInv (run as σ) := by
  induction as generalizing σ with
  | nil => exact h
  | cons a as ih => exact ih (step a σ) (step_preserves_UploadInv a σ h)

/-- In a table with pairwise distinct keys, two positions holding the same key
are the same position. -/
theorem index_eq_of_key_eq {α β : Type} (f : α → β) (l : List α) (hnd : (l.map f).Nodup) :
    ∀ (i j : Nat) (a b : α), l[i]? = some a → l[j]? = some b → f a = f b → i = j := by
  induction l with
  | nil => intro i j a b hi; simp at hi
  | cons x l ih =>
    simp only [List.map_cons, List.nodup_cons, List.mem_map, not_exists, not_and] at hnd
    intro i j a b hi hj hab
    cases i with
    | zero =>
      cases j with
      | zero => rfl
      | succ j =>
        simp only [List.getElem?_cons_zero, Option.some.injEq] at hi
        simp only [List.getElem?_cons_succ] at hj
        subst hi
        exact absurd hab.symm (hnd.1 b (List.getElem?_mem hj))
    | succ i =>
      cases j with
      | zero =>
        simp only [List.getElem?_cons_zero, Option.some.injEq] at hj
        simp only [List.getElem?_cons_succ] at hi
        subst hj
        exact absurd hab (hnd.1 a (List.getElem?_mem hi))
      | succ j =>
        simp only [List.getElem?_cons_succ] at hi hj
        rw [ih hnd.2 i j a b hi hj hab]

/-- Equal views give, position by position, rows with equal id and transfer
id. -/
theorem row_of_txView_eq (s s2 : Store) (hv : txView s2 = txView s) (i : Nat) (r : FileRow)
    (h : s.files[i]? = some r) :
    ∃ r2, s2.files[i]? = some r2 ∧ r2.id = r.id ∧ r2.tx_id = r.tx_id := by
  have h1 : (txView s)[i]? = some (r.id, r.tx_id) := by
    simp only [txView, List.getElem?_map, h, Option.map_some']
  rw [← hv] at h1
  simp only [txView, List.getElem?_map] at h1
  cases h2 : s2.files[i]? with
  | none =>
    rw [h2] at h1
    simp at h1
  | some r2 =>
    rw [h2] at h1
    simp only [Option.map_some', Option.some.injEq, Prod.mk.injEq] at h1
    exact ⟨r2, rfl, h1.1, h1.2⟩

/-- One step from a state satisfying the invariant: a row keeps its place and
id, a transfer id that is set stays, and a transfer id changes only in the
upload worker step that persists a non-empty transfer id for the dequeued
File, whose id is the row's; that step changes nothing else in the store. -/
theorem step_tx_id (a : Action) (σ : System) (hinv : UploadInv σ) (i : Nat) (r : FileRow)
    (h : σ.store.files[i]? = some r) :
    ∃ r2, (step a σ).store.files[i]? = some r2 ∧ r2.id = r.id
      ∧ (r.tx_id ≠ none → r2.tx_id = r.tx_id)
      ∧ (r2.tx_id ≠ r.tx_id →
          r.tx_id = none
          ∧ (∃ tx newFile rest, a = .uploadWorker (.ok tx) ∧ tx ≠ ""
              ∧ σ.uploadWorkerRunning = true ∧ σ.newFilesChan = newFile :: rest
              ∧ newFile.ID = r.id ∧ r2.tx_id = some tx)
          ∧ r2 = ⟨r.id, r.filename, r.hash, r.size, r2.tx_id, r.is_uploaded, r.created_at⟩
          ∧ (∀ (j : Nat) (q : FileRow), j ≠ i → σ.store.files[j]? = some q →
              (step a σ).store.files[j]? = some q)
          ∧ (step a σ).store.files.length = σ.store.files.length
          ∧ (step a σ).store.downloaded_files = σ.store.downloaded_files
          ∧ (step a σ).store.files_seq = σ.store.files_seq
          ∧ (step a σ).store.downloaded_files_seq = σ.store.downloaded_files_seq) := by
  have same : ∀ r2 : FileRow, r2.id = r.id → r2.tx_id = r.tx_id →
      (step a σ).store.files[i]? = some r2 →
      ∃ r2, (step a σ).store.files[i]? = some r2 ∧ r2.id = r.id
      ∧ (r.tx_id ≠ none → r2.tx_id = r.tx_id)
      ∧ (r2.tx_id ≠ r.tx_id →
          r.tx_id = none
          ∧ (∃ tx newFile rest, a = .uploadWorker (.ok tx) ∧ tx ≠ ""
              ∧ σ.uploadWorkerRunning = true ∧ σ.newFilesChan = newFile :: rest
              ∧ newFile.ID = r.id ∧ r2.tx_id = some tx)
          ∧ r2 = ⟨r.id, r.filename, r.hash, r.size, r2.tx_id, r.is_uploaded, r.created_at⟩
          ∧ (∀ (j : Nat) (q : FileRow), j ≠ i → σ.store.files[j]? = some q →
              (step a σ).store.files[j]? = some q)
          ∧ (step a σ).store.files.length = σ.store.files.length
          ∧ (step a σ).store.downloaded_files = σ.store.downloaded_files
          ∧ (step a σ).store.files_seq = σ.store.files_seq
          ∧ (step a σ).store.downloaded_files_seq = σ.store.downloaded_files_seq) :=
    fun r2 hid htx hget => ⟨r2, hget, hid, fun _ => htx, fun hne => absurd htx hne⟩
  cases a with
  | upload now form saveErr hash =>
    apply same r rfl rfl
    rcases uploadHandler_cases σ.store σ.fs now form saveErr hash with
      ⟨hs, _⟩ | ⟨fn, hh, sz, hs, _⟩
    · simp only [step, hs, h]
    · simp only [step, hs, AddFile]
      rw [List.getElem?_append_left (List.getElem?_eq_some.1 h).1, h]
  | uploadWorker upload =>
    by_cases hr : σ.uploadWorkerRunning = true
    swap
    · apply same r rfl rfl
      rw [step_uploadWorker_idle σ upload (Or.inl (by simpa using hr)), h]
    · obtain hc | ⟨newFile, rest, hc⟩ :
          σ.newFilesChan = [] ∨ ∃ newFile rest, σ.newFilesChan = newFile :: rest := by
        cases σ.newFilesChan <;> simp
      · apply same r rfl rfl
        rw [step_uploadWorker_idle σ upload (Or.inr hc), h]
      · cases upload with
      | error e =>
        apply same r rfl rfl
        rw [step_uploadWorker_cons σ _ newFile rest hr hc]
        simp only [uploadWorker, h]
      | ok tx =>
        by_cases htx : tx = ""
        · apply same r rfl rfl
          rw [step_uploadWorker_cons σ _ newFile rest hr hc]
          simp only [uploadWorker, htx, ne_eq, not_true_eq_false, if_false, h]
        · have hst : (step (.uploadWorker (.ok tx)) σ).store = UpdateTxId σ.store newFile.ID tx := by
            rw [step_uploadWorker_cons σ _ newFile rest hr hc]
            simp only [uploadWorker, ne_eq, htx, not_false_eq_true, if_true]
          by_cases hid : r.id = newFile.ID
          · obtain ⟨_, h2, _, _, h5⟩ := hinv
            have hnone : r.tx_id = none := by
              apply h5 newFile (by rw [hc]; exact List.mem_cons_self _ _) (r.id, r.tx_id) _ hid
              exact List.mem_map.2 ⟨r, List.getElem?_mem h, rfl⟩
            refine ⟨⟨r.id, r.filename, r.hash, r.size, some tx, r.is_uploaded, r.created_at⟩,
              ?_, rfl, fun hn => absurd hnone hn, fun _ => ⟨hnone, ⟨tx, newFile, rest, rfl, htx,
                hr, hc, hid.symm, rfl⟩, rfl, ?_, ?_, ?_, ?_, ?_⟩⟩
            · rw [hst]
              simp only [UpdateTxId, List.getElem?_map, h, Option.map_some', hid, if_true]
            · intro j q hj hq
              have hq2 : q.id ≠ newFile.ID := by
                intro e
                have hnd : (σ.store.files.map (fun r => r.id)).Nodup := by
                  simpa [txView, List.map_map, Function.comp] using h2
                exact hj (index_eq_of_key_eq (fun r => r.id) σ.store.files hnd j i q r hq h
                  (e.trans hid.symm))
              rw [hst]
              simp only [UpdateTxId, List.getElem?_map, hq, Option.map_some', hq2, if_false]
            · rw [hst]
              simp only [UpdateTxId, List.length_map]
            · rw [hst]
              rfl
            · rw [hst]
              rfl
            · rw [hst]
              rfl
          · apply same r rfl rfl
            rw [hst]
            simp only [UpdateTxId, List.getElem?_map, h, Option.map_some', hid, if_false]
  | poller check ioErr =>
    obtain ⟨r2, hget, hid, htx⟩ := row_of_txView_eq σ.store _ (step_other_frame (.poller check ioErr) σ
      (fun _ _ _ _ e => by cases e) (fun _ e => by cases e)).1 i r h
    exact same r2 hid htx hget
  | download fileIdInt parseErr =>
    obtain ⟨r2, hget, hid, htx⟩ := row_of_txView_eq σ.store _ (step_other_frame (.download fileIdInt parseErr) σ
      (fun _ _ _ _ e => by cases e) (fun _ e => by cases e)).1 i r h
    exact same r2 hid htx hget
  | downloadWorker now download ioErr =>
    obtain ⟨r2, hget, hid, htx⟩ := row_of_txView_eq σ.store _ (step_other_frame (.downloadWorker now download ioErr) σ
      (fun _ _ _ _ e => by cases e) (fun _ e => by cases e)).1 i r h
    exact same r2 hid htx hget
  | sweeper now ioErr =>
    obtain ⟨r2, hget, hid, htx⟩ := row_of_txView_eq σ.store _ (step_other_frame (.sweeper now ioErr) σ
      (fun _ _ _ _ e => by cases e) (fun _ e => by cases e)).1 i r h
    exact same r2 hid htx hget

/-- Along any further run from a state satisfying the invariant, a row whose
transfer id is set keeps its place, its id and that transfer id. -/
theorem run_tx_id_stable (bs : List Action) :
    ∀ (σ : System), UploadInv σ → ∀ (i : Nat) (r : FileRow), σ.store.files[i]? = some r →
      r.tx_id ≠ none →
      ∃ r3, (run bs σ).store.files[i]? = some r3 ∧ r3.id = r.id ∧ r3.tx_id = r.tx_id := by
  induction bs with
  | nil => intro σ _ i r h _; exact ⟨r, h, rfl, rfl⟩
  | cons b bs ih =>
    intro σ hinv i r h hset
    obtain ⟨r2, h2, hid2, hkeep, _⟩ := step_tx_id b σ hinv i r h
    have htx2 : r2.tx_id = r.tx_id := hkeep hset
    obtain ⟨r3, h3, hid3, htx3⟩ := ih (step b σ) (step_preserves_UploadInv b σ hinv) i r2 h2
      (by rw [htx2]; exact hset)
    exact ⟨r3, h3, hid3.trans hid2, htx3.trans htx2⟩

/-- Claim C7. In every state reached by a run of the system from its start,
for every `files` row and every next step: the row keeps its place and id; if
its `tx_id` is set, it is the same after the step and after any further run;
and if the step changes its `tx_id`, then the `tx_id` was unset, the step is
the upload worker persisting the non-empty transfer id of a successful upload
for the File it dequeued, whose id is the row's, and the step changes no other
column of the row, no other row and nothing else in the store. -/
theorem tx_id_written_once (as : List Action) (a : Action) (i : Nat) (r : FileRow)
    (h : (run as System.init).store.files[i]? = some r) :
    (∃ r2, (step a (run as System.init)).store.files[i]? = some r2 ∧ r2.id = r.id
      ∧ (r.tx_id ≠ none → r2.tx_id = r.tx_id)
      ∧ (r2.tx_id ≠ r.tx_id →
          r.tx_id = none
          ∧ (∃ tx newFile rest, a = .uploadWorker (.ok tx) ∧ tx ≠ ""
              ∧ (run as System.init).uploadWorkerRunning = true
              ∧ (run as System.init).newFilesChan = newFile :: rest
              ∧ newFile.ID = r.id ∧ r2.tx_id = some tx)
          ∧ r2 = ⟨r.id, r.filename, r.hash, r.size, r2.tx_id, r.is_uploaded, r.created_at⟩
          ∧ (∀ (j : Nat) (q : FileRow), j ≠ i → (run as System.init).store.files[j]? = some q →
              (step a (run as System.init)).store.files[j]? = some q)
          ∧ (step a (run as System.init)).store.files.length =
              (run as System.init).store.files.length
          ∧ (step a (run as System.init)).store.downloaded_files =
              (run as System.init).store.downloaded_files
          ∧ (step a (run as System.init)).store.files_seq = (run as System.init).store.files_seq
          ∧ (step a (run as System.init)).store.downloaded_files_seq =
              (run as System.init).store.downloaded_files_seq))
    ∧ (r.tx_id ≠ none → ∀ bs : List Action,
        ∃ r3, (run bs (run as System.init)).store.files[i]? = some r3 ∧ r3.id = r.id ∧
          r3.tx_id = r.tx_id) :=
  ⟨step_tx_id a _ (run_preserves_UploadInv as _ UploadInv_init) i r h,
   fun hset bs => run_tx_id_stable bs _ (run_preserves_UploadInv as _ UploadInv_init) i r h hset⟩

/-- Claim C7 on a run with two uploads of which the first has its transfer id:
the second row is there, and the first keeps `T1` through a further run in
which the worker persists `T2` for the second. -/
theorem tx_id_written_once_witness :
    (run exampleRun System.init).store.files[0]? = some ⟨1, "a.txt", "H1", 10, some "T1", true, 1⟩
    ∧ ∃ r3, (run [.uploadWorker (.ok "T2"), .poller (fun _ _ => .ok true) (fun _ => false)]
          (run exampleRun System.init)).store.files[0]? = some r3
        ∧ r3.id = (⟨1, "a.txt", "H1", 10, some "T1", true, 1⟩ : FileRow).id
        ∧ r3.tx_id = (⟨1, "a.txt", "H1", 10, some "T1", true, 1⟩ : FileRow).tx_id :=
  ⟨by decide,
   (tx_id_written_once exampleRun (.uploadWorker (.ok "T2")) 0
      ⟨1, "a.txt", "H1", 10, some "T1", true, 1⟩ (by decide)).2 (by decide) _⟩

/-- Replaying the calls of the sweeper loop gives the store the loop ends
with, whether it ran to its end or returned early. -/
theorem replay_sweeperLog (ioErr : String → Bool) (files : List File) :
    ∀ (s : Store) (fs : FS),
      replay (sweeperLog ioErr files fs) s = (sweeperLoop ioErr files s fs).store := by
  induction files with
  | nil => intro s fs; rfl
  | cons file rest ih =>
    intro s fs
    rw [sweeperLog, sweeperLoop]
    cases osRemove fs ioErr ("./downloads/" ++ file.Filename) with
    | error e => rfl
    | ok fs1 => exact ih (RemoveDownloadedFile s file.ID) fs1

/-- In the calls of the sweeper loop, a marking comes right after the
successful deletion for the same record of the batch. -/
theorem sweeperLog_mark_after_ok (ioErr : String → Bool) (files : List File) :
    ∀ (fs : FS) (k : Nat) (file : File),
      (sweeperLog ioErr files fs)[k]? = some (.markRemoved file) →
      ∃ j, k = j + 1 ∧ (sweeperLog ioErr files fs)[j]? = some (.removeOk file) ∧ file ∈ files := by
  induction files with
  | nil => intro fs k file h; simp [sweeperLog] at h
  | cons f rest ih =>
    intro fs k file h
    rw [sweeperLog] at h ⊢
    cases hrm : osRemove fs ioErr ("./downloads/" ++ f.Filename) with
    | error e =>
      rw [hrm] at h
      cases k with
      | zero => simp at h
      | succ k => simp at h
    | ok fs1 =>
      rw [hrm] at h
      simp only
      cases k with
      | zero => simp at h
      | succ k =>
        cases k with
        | zero =>
          simp only [List.getElem?_cons_succ, List.getElem?_cons_zero, Option.some.injEq,
            SweepEvent.markRemoved.injEq] at h
          subst h
          exact ⟨0, rfl, by simp, List.mem_cons_self _ _⟩
        | succ k =>
          simp only [List.getElem?_cons_succ] at h
          obtain ⟨j, hk, hj, hmem⟩ := ih fs1 k file h
          exact ⟨j + 2, by omega, by simpa using hj, List.mem_cons_of_mem _ hmem⟩

/-- In the calls of the sweeper loop, a deletion that succeeded found its path
on disk at the start of the loop. -/
theorem sweeperLog_ok_on_disk (ioErr : String → Bool) (files : List File) :
    ∀ (fs : FS) (j : Nat) (file : File),
      (sweeperLog ioErr files fs)[j]? = some (.removeOk file) →
      "./downloads/" ++ file.Filename ∈ fs := by
  induction files with
  | nil => intro fs j file h; simp [sweeperLog] at h
  | cons f rest ih =>
    intro fs j file h
    rw [sweeperLog] at h
    cases hrm : osRemove fs ioErr ("./downloads/" ++ f.Filename) with
    | error e =>
      rw [hrm] at h
      cases j with
      | zero => simp at h
      | succ j => simp at h
    | ok fs1 =>
      rw [hrm] at h
      have hfs1 := osRemove_ok fs fs1 ioErr _ hrm
      cases j with
      | zero =>
        simp only [List.getElem?_cons_zero, Option.some.injEq, SweepEvent.removeOk.injEq] at h
        subst h
        unfold osRemove at hrm
        split at hrm
        · cases hrm
        · split at hrm
          · assumption
          · cases hrm
      | succ j =>
        cases j with
        | zero => simp at h
        | succ j =>
          simp only [List.getElem?_cons_succ] at h
          have := ih fs1 j file h
          rw [hfs1] at this
          exact (List.mem_filter.1 this).1

/-- In the calls of the sweeper loop, a failed deletion is the last call. -/
theorem sweeperLog_err_last (ioErr : String → Bool) (files : List File) :
    ∀ (fs : FS) (j : Nat) (file : File),
      (sweeperLog ioErr files fs)[j]? = some (.removeErr file) →
      (sweeperLog ioErr files fs).length = j + 1 := by
  induction files with
  | nil => intro fs j file h; simp [sweeperLog] at h
  | cons f rest ih =>
    intro fs j file h
    rw [sweeperLog] at h ⊢
    cases hrm : osRemove fs ioErr ("./downloads/" ++ f.Filename) with
    | error e =>
      rw [hrm] at h
      cases j with
      | zero => rfl
      | succ j => simp at h
    | ok fs1 =>
      rw [hrm] at h
      simp only
      cases j with
      | zero => simp at h
      | succ j =>
        cases j with
        | zero => simp at h
        | succ j =>
          simp only [List.getElem?_cons_succ] at h
          have := ih fs1 j file h
          simp only [List.length_cons, this]

/-- A row that a sequence of sweeper calls turned from not removed to removed
has a marking for its id among the calls. -/
theorem replay_marked (evs : List SweepEvent) :
    ∀ (s : Store) (i : Nat) (r r2 : DownloadedFileRow), s.downloaded_files[i]? = some r →
      (replay evs s).downloaded_files[i]? = some r2 → r.is_removed = false →
      r2.is_removed = true →
      ∃ (m : Nat) (file : File), evs[m]? = some (.markRemoved file) ∧ file.ID = r.id := by
  induction evs with
  | nil =>
    intro s i r r2 h h2 hr hr2
    simp only [replay, List.foldl_nil] at h2
    rw [h] at h2
    cases h2
    rw [hr] at hr2
    cases hr2
  | cons e evs ih =>
    intro s i r r2 h h2 hr hr2
    have hrep : replay (e :: evs) s = replay evs (e.apply s) := rfl
    rw [hrep] at h2
    cases e with
    | removeOk f =>
      obtain ⟨m, file, hm, hid⟩ := ih s i r r2 h h2 hr hr2
      exact ⟨m + 1, file, by simpa using hm, hid⟩
    | removeErr f =>
      obtain ⟨m, file, hm, hid⟩ := ih s i r r2 h h2 hr hr2
      exact ⟨m + 1, file, by simpa using hm, hid⟩
    | markRemoved f =>
      by_cases hf : r.id = f.ID
      · exact ⟨0, f, by simp, hf.symm⟩
      · have h1 : (SweepEvent.apply (.markRemoved f) s).downloaded_files[i]? = some r := by
          simp only [SweepEvent.apply, RemoveDownloadedFile, List.getElem?_map, h,
            Option.map_some', hf, if_false]
        obtain ⟨m, file, hm, hid⟩ := ih _ i r r2 h1 h2 hr hr2
        exact ⟨m + 1, file, by simpa using hm, hid⟩

/-- With ids as primary key, the entry of the batch that carries a row's id is
the entry built from that row. -/
theorem expired_entry_of_id (s : Store) (now duration : Time)
    (hnd : (s.downloaded_files.map (fun r => r.id)).Nodup) (r : DownloadedFileRow)
    (hr : r ∈ s.downloaded_files) (file : File)
    (hfile : file ∈ GetExpiredDownloadedFiles s now duration) (hid : file.ID = r.id) :
    file = ⟨r.id, r.filename, r.hash, r.size, "", false, 0⟩ := by
  rw [GetExpiredDownloadedFiles_eq_map] at hfile
  obtain ⟨q, hq, rfl⟩ := List.mem_map.1 hfile
  have hq2 : q ∈ s.downloaded_files := (List.mem_filter.1 hq).1
  have : q = r := List.inj_on_of_nodup_map hnd hq2 hr hid
  rw [this]

/-- A sequence of sweeper calls keeps every row in place and changes at most
its `is_removed`. -/
theorem replay_row (evs : List SweepEvent) :
    ∀ (s : Store) (i : Nat) (r : DownloadedFileRow), s.downloaded_files[i]? = some r →
      ∃ b, (replay evs s).downloaded_files[i]? =
        some ⟨r.id, r.file_id, r.filename, r.hash, r.size, r.downloaded_at, r.is_processing, b⟩ := by
  induction evs with
  | nil => intro s i r h; exact ⟨r.is_removed, h⟩
  | cons e evs ih =>
    intro s i r h
    have hrep : replay (e :: evs) s = replay evs (e.apply s) := rfl
    rw [hrep]
    cases e with
    | removeOk f => exact ih s i r h
    | removeErr f => exact ih s i r h
    | markRemoved f =>
      by_cases hf : r.id = f.ID
      · have h1 : (SweepEvent.apply (.markRemoved f) s).downloaded_files[i]? =
            some ⟨r.id, r.file_id, r.filename, r.hash, r.size, r.downloaded_at,
              r.is_processing, true⟩ := by
          simp only [SweepEvent.apply, RemoveDownloadedFile, List.getElem?_map, h,
            Option.map_some', hf, if_true]
        exact ih _ i ⟨r.id, r.file_id, r.filename, r.hash, r.size, r.downloaded_at,
          r.is_processing, true⟩ h1
      · have h1 : (SweepEvent.apply (.markRemoved f) s).downloaded_files[i]? = some r := by
          simp only [SweepEvent.apply, RemoveDownloadedFile, List.getElem?_map, h,
            Option.map_some', hf, if_false]
        exact ih _ i r h1

/-- The sweeper loop runs to its end only if every served copy of the batch was
on disk at the start. -/
theorem sweeperLoop_running_on_disk (ioErr : String → Bool) (files : List File) :
    ∀ (s : Store) (fs : FS), (sweeperLoop ioErr files s fs).running = true →
      ∀ f ∈ files, "./downloads/" ++ f.Filename ∈ fs := by
  induction files with
  | nil => intro s fs _ f hf; cases hf
  | cons file rest ih =>
    intro s fs hrun f hf
    rw [sweeperLoop] at hrun
    cases hrm : osRemove fs ioErr ("./downloads/" ++ file.Filename) with
    | error e => simp [hrm] at hrun
    | ok fs1 =>
      simp only [hrm] at hrun
      have hfs1 := osRemove_ok fs fs1 ioErr _ hrm
      rcases List.mem_cons.1 hf with rfl | hf
      · unfold osRemove at hrm
        split at hrm
        · cases hrm
        · split at hrm
          · assumption
          · cases hrm
      · have := ih _ fs1 hrun f hf
        rw [hfs1] at this
        exact (List.mem_filter.1 this).1

/-- What a tick does to an expired record whose served copy is absent: the
goroutine returns and the record is left as it was. -/
theorem sweeperTick_absent_file (s : Store) (fs : FS) (now : Time) (ioErr : String → Bool)
    (hnd : (s.downloaded_files.map (fun r => r.id)).Nodup) (i : Nat) (r : DownloadedFileRow)
    (h : s.downloaded_files[i]? = some r)
    (hexp : r.is_removed = false ∧ r.is_processing = false ∧ r.downloaded_at < now - Hour)
    (habs : "./downloads/" ++ r.filename ∉ fs) :
    (sweeperTick s fs now ioErr).running = false
    ∧ (sweeperTick s fs now ioErr).store.downloaded_files[i]? = some r := by
  have hr : r ∈ s.downloaded_files := List.getElem?_mem h
  have hsub : now + -(1 * Hour) = now - Hour := by ring
  have hbatch : (⟨r.id, r.filename, r.hash, r.size, "", false, 0⟩ : File) ∈
      GetExpiredDownloadedFiles s now (1 * Hour) := by
    rw [GetExpiredDownloadedFiles_eq_map, hsub]
    exact List.mem_map.2 ⟨r, List.mem_filter.2 ⟨hr, by simpa using hexp⟩, rfl⟩
  constructor
  · cases hrun : (sweeperTick s fs now ioErr).running with
    | false => rfl
    | true =>
      exact absurd (sweeperLoop_running_on_disk ioErr _ s fs hrun _ hbatch) habs
  · unfold sweeperTick
    rw [← replay_sweeperLog]
    obtain ⟨b, hb⟩ := replay_row (sweeperLog ioErr (GetExpiredDownloadedFiles s now (1 * Hour)) fs)
      s i r h
    cases b with
    | false =>
      rw [hb, ← hexp.1]
    | true =>
      obtain ⟨m, file, hm, hid⟩ := replay_marked _ s i r _ h hb hexp.1 rfl
      obtain ⟨j, _, hj, hmem⟩ := sweeperLog_mark_after_ok ioErr _ fs m file hm
      have hfile := expired_entry_of_id s now (1 * Hour) hnd r hr file hmem hid
      have hdisk := sweeperLog_ok_on_disk ioErr _ fs j file hj
      rw [hfile] at hdisk
      exact absurd hdisk habs

/-- Claim C11 fails on the code. On the store a crash between deletion and flag
update leaves behind (an expired record, its served copy already gone), a tick
does not mark the record: `os.Remove` returns an error, the record keeps
`is_removed = false` and the goroutine has returned, so later ticks do nothing
either. In general, with ids as primary key, every tick that has an expired
record whose served copy is absent returns early and leaves that record
unmarked. -/
theorem sweeperTick_fails_on_absent_file :
    sweeperTick exampleCrashed [] (2 * Hour) (fun _ => false) = ⟨exampleCrashed, [], false⟩
    ∧ (run [.sweeper (2 * Hour) (fun _ => false), .sweeper (3 * Hour) (fun _ => false)]
        ⟨exampleCrashed, [], [], [], true, true, true, true⟩).store = exampleCrashed
    ∧ ∀ (s : Store) (fs : FS) (now : Time) (ioErr : String → Bool) (i : Nat)
        (r : DownloadedFileRow), (s.downloaded_files.map (fun r => r.id)).Nodup →
        s.downloaded_files[i]? = some r →
        (r.is_removed = false ∧ r.is_processing = false ∧ r.downloaded_at < now - Hour) →
        "./downloads/" ++ r.filename ∉ fs →
        (sweeperTick s fs now ioErr).running = false
        ∧ (sweeperTick s fs now ioErr).store.downloaded_files[i]? = some r :=
  ⟨by decide, by decide, fun s fs now ioErr i r hnd h hexp habs =>
    sweeperTick_absent_file s fs now ioErr hnd i r h hexp habs⟩

/-- In the calls of the sweeper loop, the deletion for the record number `p`
of the batch, whatever its result, is the call number `2 * p`. -/
theorem sweeperLog_attempt_position (ioErr : String → Bool) (files : List File) :
    ∀ (fs : FS) (j : Nat) (f : File),
      ((sweeperLog ioErr files fs)[j]? = some (.removeOk f)
        ∨ (sweeperLog ioErr files fs)[j]? = some (.removeErr f)) →
      ∃ p, j = 2 * p ∧ files[p]? = some f := by
  induction files with
  | nil => intro fs j f h; simp [sweeperLog] at h
  | cons file rest ih =>
    intro fs j f h
    rw [sweeperLog] at h
    cases hrm : osRemove fs ioErr ("./downloads/" ++ file.Filename) with
    | error e =>
      rw [hrm] at h
      cases j with
      | zero =>
        simp only [List.getElem?_cons_zero, Option.some.injEq, reduceCtorEq, false_or,
          SweepEvent.removeErr.injEq] at h
        exact ⟨0, rfl, by simp [h]⟩
      | succ j => simp at h
    | ok fs1 =>
      rw [hrm] at h
      cases j with
      | zero =>
        simp only [List.getElem?_cons_zero, Option.some.injEq, reduceCtorEq, or_false,
          SweepEvent.removeOk.injEq] at h
        exact ⟨0, rfl, by simp [h]⟩
      | succ j =>
        cases j with
        | zero => simp at h
        | succ j =>
          simp only [List.getElem?_cons_succ] at h
          obtain ⟨p, hp, hf⟩ := ih fs1 j f h
          exact ⟨p + 1, by omega, by simpa using hf⟩

/-- The batch of a tick carries pairwise distinct ids when the table does. -/
theorem expired_ids_nodup (s : Store) (now duration : Time)
    (hnd : (s.downloaded_files.map (fun r => r.id)).Nodup) :
    ((GetExpiredDownloadedFiles s now duration).map (fun f => f.ID)).Nodup := by
  rw [GetExpiredDownloadedFiles_eq_map, List.map_map]
  have hsub : List.Sublist
      ((s.downloaded_files.filter (fun r => decide (r.is_removed = false ∧
        r.is_processing = false ∧ r.downloaded_at < now + -duration))).map
        (fun r : DownloadedFileRow => r.id))
      (s.downloaded_files.map (fun r => r.id)) := (List.filter_sublist _).map _
  exact hsub.nodup hnd

/-- Claim C13. Take the calls of a sweeper tick in order (for every record a
deletion and, when it succeeded, the marking; the sequence ends at the first
failed deletion) on a table whose ids are the primary key. Replaying all of
them gives the store the tick ends with, and a failed deletion is the last
call. At the point reached after any number `k` of these calls, a record that
the tick has turned from not removed to removed has, among the calls already
made, the deletion of its own served copy `./downloads/<filename>`, which
returned without error on a path that was on disk, followed at once by its
marking. A record whose deletion failed is at no point marked. -/
theorem sweeperTick_marks_only_after_delete (s : Store) (fs : FS) (now : Time)
    (ioErr : String → Bool) (hnd : (s.downloaded_files.map (fun r => r.id)).Nodup) :
    replay (sweeperTickLog s fs now ioErr) s = (sweeperTick s fs now ioErr).store
    ∧ (∀ (j : Nat) (file : File), (sweeperTickLog s fs now ioErr)[j]? = some (.removeErr file) →
        (sweeperTickLog s fs now ioErr).length = j + 1)
    ∧ (∀ (k i : Nat) (r r2 : DownloadedFileRow), s.downloaded_files[i]? = some r →
        (replay ((sweeperTickLog s fs now ioErr).take k) s).downloaded_files[i]? = some r2 →
        r.is_removed = false → r2.is_removed = true →
        ∃ j, j + 1 < k
          ∧ (sweeperTickLog s fs now ioErr)[j]? =
              some (.removeOk ⟨r.id, r.filename, r.hash, r.size, "", false, 0⟩)
          ∧ (sweeperTickLog s fs now ioErr)[j + 1]? =
              some (.markRemoved ⟨r.id, r.filename, r.hash, r.size, "", false, 0⟩)
          ∧ "./downloads/" ++ r.filename ∈ fs)
    ∧ ∀ (l i : Nat) (r : DownloadedFileRow), s.downloaded_files[i]? = some r →
        r.is_removed = false →
        (sweeperTickLog s fs now ioErr)[l]? =
          some (.removeErr ⟨r.id, r.filename, r.hash, r.size, "", false, 0⟩) →
        ∀ (k : Nat) (r2 : DownloadedFileRow),
          (replay ((sweeperTickLog s fs now ioErr).take k) s).downloaded_files[i]? = some r2 →
          r2.is_removed = false := by
  have hC : ∀ (k i : Nat) (r r2 : DownloadedFileRow), s.downloaded_files[i]? = some r →
        (replay ((sweeperTickLog s fs now ioErr).take k) s).downloaded_files[i]? = some r2 →
        r.is_removed = false → r2.is_removed = true →
        ∃ j, j + 1 < k
          ∧ (sweeperTickLog s fs now ioErr)[j]? =
              some (.removeOk ⟨r.id, r.filename, r.hash, r.size, "", false, 0⟩)
          ∧ (sweeperTickLog s fs now ioErr)[j + 1]? =
              some (.markRemoved ⟨r.id, r.filename, r.hash, r.size, "", false, 0⟩)
          ∧ "./downloads/" ++ r.filename ∈ fs := ?_
  · refine ⟨replay_sweeperLog ioErr _ s fs,
      fun j file h => sweeperLog_err_last ioErr _ fs j file h, hC, ?_⟩
    intro l i r h hr hl k r2 h2
    cases hr2 : r2.is_removed with
    | false => rfl
    | true =>
      obtain ⟨j, _, hj, _, _⟩ := hC k i r r2 h h2 hr hr2
      obtain ⟨p, hjp, hp⟩ := sweeperLog_attempt_position ioErr _ fs j _ (Or.inl hj)
      obtain ⟨q, hlq, hq⟩ := sweeperLog_attempt_position ioErr _ fs l _ (Or.inr hl)
      have hpq : p = q := index_eq_of_key_eq (fun f => f.ID) _
        (expired_ids_nodup s now (1 * Hour) hnd) p q _ _ hp hq rfl
      have hjl : j = l := by omega
      rw [hjl, hl] at hj
      cases hj
  intro k i r r2 h h2 hr hr2
  obtain ⟨m, file, hm, hid⟩ := replay_marked _ s i r r2 h h2 hr hr2
  rw [List.getElem?_take] at hm
  by_cases hmk : m < k
  · rw [if_pos hmk] at hm
    obtain ⟨j, hmj, hj, hmem⟩ := sweeperLog_mark_after_ok ioErr _ fs m file hm
    have hfile := expired_entry_of_id s now (1 * Hour) hnd r (List.getElem?_mem h) file hmem hid
    have hdisk := sweeperLog_ok_on_disk ioErr _ fs j file hj
    subst hmj
    rw [hfile] at hj hm hdisk
    exact ⟨j, hmk, hj, hm, hdisk⟩
  · rw [if_neg hmk] at hm
    cases hm

/-- Claim C13 on a tick over two expired records of which only the first has
its served copy on disk: after the first two calls the first record is marked,
and the calls made are its deletion, without error, and its marking. -/
theorem sweeperTick_marks_only_after_delete_witness :
    (exampleTwoExpired.downloaded_files.map (fun r => r.id)).Nodup
    ∧ sweeperTickLog exampleTwoExpired ["./downloads/a.txt"] (2 * Hour) (fun _ => false) =
        [.removeOk ⟨1, "a.txt", "H1", 10, "", false, 0⟩,
         .markRemoved ⟨1, "a.txt", "H1", 10, "", false, 0⟩,
         .removeErr ⟨2, "b.txt", "H2", 20, "", false, 0⟩]
    ∧ ∃ j, j + 1 < 2
        ∧ (sweeperTickLog exampleTwoExpired ["./downloads/a.txt"] (2 * Hour) (fun _ => false))[j]? =
            some (.removeOk ⟨1, "a.txt", "H1", 10, "", false, 0⟩)
        ∧ (sweeperTickLog exampleTwoExpired ["./downloads/a.txt"] (2 * Hour)
            (fun _ => false))[j + 1]? =
            some (.markRemoved ⟨1, "a.txt", "H1", 10, "", false, 0⟩)
        ∧ "./downloads/" ++ "a.txt" ∈ ["./downloads/a.txt"] :=
  ⟨by decide, by decide,
   (sweeperTick_marks_only_after_delete exampleTwoExpired ["./downloads/a.txt"] (2 * Hour)
      (fun _ => false) (by decide)).2.2.1 2 0 ⟨1, 1, "a.txt", "H1", 10, 0, false, false⟩
      ⟨1, 1, "a.txt", "H1", 10, 0, false, true⟩ (by decide) (by decide) rfl rfl⟩

/-- Claim C12 as stated fails on the code. The `RETURNING` list of `AddFile`
has no `hash` column and the returned struct sets no `Hash`: inserting
`a.txt` with hash `H1` persists the hash in the row but returns, and the
upload handler sends to the upload worker, a File whose `Hash` is empty. -/
theorem AddFile_returns_empty_hash :
    (AddFile Store.empty 7 "a.txt" "H1" 10).1 = ⟨1, "a.txt", "", 10, "", false, 7⟩
    ∧ (AddFile Store.empty 7 "a.txt" "H1" 10).1.Hash ≠ "H1"
    ∧ (AddFile Store.empty 7 "a.txt" "H1" 10).2.files = [⟨1, "a.txt", "H1", 10, none, false, 7⟩]
    ∧ (uploadHandler Store.empty [] 7 (.ok ("a.txt", 10)) none (.ok "H1")).sent =
        some ⟨1, "a.txt", "", 10, "", false, 7⟩ := by
  refine ⟨?_, ?_, ?_, ?_⟩ <;> decide

/-- Claim C12, amended. `AddFile` appends one row holding the filename, hash
and size given, no transfer id, `is_uploaded = false` and the insertion time,
under the next id. The File it returns, which is the value the upload handler
sends to the upload worker, has that id, the filename and size given,
`IsUploaded = false`, an empty `TxId` and the row's `CreatedAt`; its `Hash` is
empty, the hash being in the row only, where `GetFileById` on the returned id
finds it when the ids of the table are at most the AUTOINCREMENT counter. -/
theorem AddFile_returns_row_without_hash (s : Store) (fs : FS) (now : Time)
    (filename hash : String) (size : Int) :
    (AddFile s now filename hash size).2.files =
        s.files ++ [⟨(AddFile s now filename hash size).1.ID, filename, hash, size, none, false, now⟩]
    ∧ (AddFile s now filename hash size).2.downloaded_files = s.downloaded_files
    ∧ (AddFile s now filename hash size).1 = ⟨s.files_seq + 1, filename, "", size, "", false, now⟩
    ∧ (uploadHandler s fs now (.ok (filename, size)) none (.ok hash)).sent =
        some (AddFile s now filename hash size).1
    ∧ ((∀ r ∈ s.files, r.id ≤ s.files_seq) →
        GetFileById (AddFile s now filename hash size).2 (AddFile s now filename hash size).1.ID =
          .ok ⟨s.files_seq + 1, filename, hash, size, "", false, now⟩) := by
  refine ⟨rfl, rfl, rfl, rfl, ?_⟩
  intro hle
  have hnone : s.files.find? (fun r => decide (r.id = s.files_seq + 1)) = none := by
    rw [List.find?_eq_none]
    intro r hr
    have := hle r hr
    simp only [decide_eq_true_eq]
    omega
  simp only [GetFileById, AddFile, List.find?_append, hnone, Option.none_or, List.find?_cons,
    decide_True, List.find?_nil, Option.getD_none]

/-- Claim C12, amended, at the store that already holds one file: the row
inserted next is read back under the returned id with its hash. -/
theorem AddFile_returns_row_without_hash_witness :
    (∀ r ∈ exampleSettled.files, r.id ≤ exampleSettled.files_seq)
    ∧ GetFileById (AddFile exampleSettled 7 "b.txt" "H2" 20).2
        (AddFile exampleSettled 7 "b.txt" "H2" 20).1.ID =
          .ok ⟨exampleSettled.files_seq + 1, "b.txt", "H2", 20, "", false, 7⟩ :=
  ⟨by decide,
   (AddFile_returns_row_without_hash exampleSettled [] 7 "b.txt" "H2" 20).2.2.2.2 (by decide)⟩

/-- A step of the download path taken with both tables empty and no sender
waiting on the download channel leaves all three as they are: the handler
finds no File (`sql.ErrNoRows`) and answers before its send, the worker has
nothing to receive, the sweeper selects nothing. -/
theorem step_downloadPath_empty (a : Action) (σ : System) (ha : a.isDownloadPath = true)
    (hf : σ.store.files = []) (hd : σ.store.downloaded_files = [])
    (hc : σ.downloadedFilesChan = []) :
    (step a σ).store = σ.store ∧ (step a σ).downloadedFilesChan = [] := by
  cases a with
  | upload now form saveErr hash => cases ha
  | uploadWorker upload => cases ha
  | poller check ioErr => cases ha
  | download fileIdInt parseErr =>
    have hsent : (downloadHandler σ.store σ.fs fileIdInt parseErr).sent = none := by
      unfold downloadHandler
      cases parseErr with
      | some e => rfl
      | none => simp only [GetFileById, hf, List.find?_nil]
    simp only [step, downloadHandler_store, hsent, Option.toList, List.append_nil, hc, and_self]
  | downloadWorker now download ioErr =>
    cases hr : σ.downloadWorkerRunning
    · simp only [step, hr, hc, and_self]
    · simp only [step, hr, hc, and_self]
  | sweeper now ioErr =>
    cases hr : σ.sweeperRunning
    · simp only [step, hr, hc, and_self]
    · have hsel : GetExpiredDownloadedFiles σ.store now (1 * Hour) = [] := by
        simp only [GetExpiredDownloadedFiles, hd, List.filter_nil, List.foldl_nil]
      simp only [step, hr, sweeperTick, hsel, sweeperLoop, hc, and_self]

/-- Claim C4. In every state reached from a system whose store is empty (no
`files` row, no `downloaded_files` row, nobody waiting on the download
channel) by steps of the download request handler, the download worker and the
expiry sweeper, the store is still the one the run started with, so it has no
`downloaded_files` row and, for every hash, at most one row with that hash and
`is_removed = false`. -/
theorem downloadPath_from_empty_at_most_one (as : List Action) (σ : System)
    (has : ∀ a ∈ as, a.isDownloadPath = true)
    (hf : σ.store.files = []) (hd : σ.store.downloaded_files = [])
    (hc : σ.downloadedFilesChan = []) :
    (run as σ).store = σ.store
    ∧ (run as σ).store.downloaded_files = []
    ∧ ∀ hash : String, ((run as σ).store.downloaded_files.filter
        (fun r => r.hash = hash ∧ r.is_removed = false)).length ≤ 1 := by
  have hrun : (run as σ).store = σ.store ∧ (run as σ).downloadedFilesChan = [] := by
    induction as generalizing σ with
    | nil => exact ⟨rfl, hc⟩
    | cons a as ih =>
      obtain ⟨hs, hc2⟩ := step_downloadPath_empty a σ (has a (List.mem_cons_self _ _)) hf hd hc
      have := ih (step a σ) (fun b hb => has b (List.mem_cons_of_mem _ hb))
        (by rw [hs]; exact hf) (by rw [hs]; exact hd) hc2
      exact ⟨this.1.trans hs, this.2⟩
  refine ⟨hrun.1, by rw [hrun.1]; exact hd, fun hash => ?_⟩
  rw [hrun.1, hd]
  simp

/-- Claim C4 on a run from the fresh system: two requests for file 1, two
worker iterations and a sweeper tick leave the store empty. -/
theorem downloadPath_from_empty_at_most_one_witness :
    (∀ a ∈ raceTrace ++ [.sweeper (2 * Hour) (fun _ => false)], a.isDownloadPath = true)
    ∧ (run (raceTrace ++ [.sweeper (2 * Hour) (fun _ => false)]) System.init).store =
        System.init.store
    ∧ (run (raceTrace ++ [.sweeper (2 * Hour) (fun _ => false)])
        System.init).store.downloaded_files = [] :=
  ⟨by simp [raceTrace, Action.isDownloadPath],
   (downloadPath_from_empty_at_most_one _ System.init (by simp [raceTrace, Action.isDownloadPath])
      rfl rfl rfl).1,
   (downloadPath_from_empty_at_most_one _ System.init (by simp [raceTrace, Action.isDownloadPath])
      rfl rfl rfl).2.1⟩

end ZgDrive
